import Mathlib

/-!
Verification of the on-policy rollout/optimization engine of this repository
(`onpolicy_sync/storage_device.py` and `onpolicy_sync/engine.py`) against its
natural-language specification.  Python tensors are modelled as total functions
from (time, process) indices into a commutative ring (all the operations the
claims touch are elementwise in the trailing axes); stateful methods become
functions on explicit state records, and Python `assert`/raises become
`Except String`.
-/

namespace AllenAct

/-! ## compute_returns (storage_device.py:242-260) -/

/-- State of the `value_preds` and `returns` arrays mutated by
`RolloutStorage.compute_returns`.  Every tensor operation in that method is
elementwise over the trailing `[N, 1]` axes, so single entries live in an
arbitrary commutative ring `R` (instantiate `R := ℚ` for one slot, or a
pointwise function ring for a whole process-indexed slice); the time axis is a
total function. -/
structure ReturnsState (R : Type) where
  value_preds : ℕ → R
  returns : ℕ → R

variable {R : Type} [CommRing R]

/-- Body of the `use_gae` loop of `compute_returns` at index `step`:
`delta = rewards[step] + gamma * value_preds[step+1] * masks[step+1] - value_preds[step]`,
`gae = delta + gamma * tau * masks[step+1] * gae`,
`returns[step] = gae + value_preds[step]`.
The accumulator carries `(gae, returns)`. -/
def gaeStep (gamma tau : R) (rewards masks value_preds : ℕ → R)
    (st : R × (ℕ → R)) (step : ℕ) : R × (ℕ → R) :=
  let delta := rewards step + gamma * value_preds (step + 1) * masks (step + 1)
    - value_preds step
  let gae := delta + gamma * tau * masks (step + 1) * st.1
  (gae, Function.update st.2 step (gae + value_preds step))

/-- Body of the non-GAE loop of `compute_returns` at index `step`:
`returns[step] = returns[step+1] * gamma * masks[step+1] + rewards[step]`. -/
def bootstrapStep (gamma : R) (rewards masks : ℕ → R)
    (returns : ℕ → R) (step : ℕ) : ℕ → R :=
  Function.update returns step
    (returns (step + 1) * gamma * masks (step + 1) + rewards step)

/-- `RolloutStorage.compute_returns(next_value, use_gae, gamma, tau)`
(storage_device.py:242-260).  `T` is `self.rewards.size(0)`; the loop
`for step in reversed(range(T))` is the fold over `(List.range T).reverse`. -/
def compute_returns (T : ℕ) (rewards masks : ℕ → R) (s : ReturnsState R)
    (next_value : R) (use_gae : Bool) (gamma tau : R) : ReturnsState R :=
  if use_gae then
    let vp := Function.update s.value_preds T next_value
    let r := (List.range T).reverse.foldl (gaeStep gamma tau rewards masks vp)
      (0, s.returns)
    ⟨vp, r.2⟩
  else
    let ret := (List.range T).reverse.foldl (bootstrapStep gamma rewards masks)
      (Function.update s.returns T next_value)
    ⟨s.value_preds, ret⟩

/-- The backward generalized-advantage recursion described by the spec, seeded
with accumulator value `g` at time `T`:
`gaeFrom ... T g t = delta_t + gamma * tau * masks[t+1] * gaeFrom ... (t+1)` for
`t < T` and `g` for `t ≥ T`.  With `g = 0` this is precisely the value the
spec's `gae` accumulator holds just after processing step `t`. -/
def gaeFrom (gamma tau : R) (rewards masks value_preds : ℕ → R)
    (T : ℕ) (g : R) (t : ℕ) : R :=
  if _h : t < T then
    (rewards t + gamma * value_preds (t + 1) * masks (t + 1) - value_preds t)
      + gamma * tau * masks (t + 1)
        * gaeFrom gamma tau rewards masks value_preds T g (t + 1)
  else g
termination_by T - t

/-- The backward discounted-bootstrap recursion described by the spec, with
value `base` at time `T`:  `returnsFrom ... T base t =
returnsFrom ... (t+1) * gamma * masks[t+1] + rewards[t]` for `t < T`. -/
def returnsFrom (gamma : R) (rewards masks : ℕ → R)
    (T : ℕ) (base : R) (t : ℕ) : R :=
  if _h : t < T then
    returnsFrom gamma rewards masks T base (t + 1) * gamma * masks (t + 1)
      + rewards t
  else base
termination_by T - t

theorem gaeFrom_of_lt (gamma tau : R) (rewards masks value_preds : ℕ → R)
    (T : ℕ) (g : R) (t : ℕ) (h : t < T) :
    gaeFrom gamma tau rewards masks value_preds T g t =
      (rewards t + gamma * value_preds (t + 1) * masks (t + 1) - value_preds t)
        + gamma * tau * masks (t + 1)
          * gaeFrom gamma tau rewards masks value_preds T g (t + 1) := by
  rw [gaeFrom]
  simp [h]

theorem gaeFrom_of_ge (gamma tau : R) (rewards masks value_preds : ℕ → R)
    (T : ℕ) (g : R) (t : ℕ) (h : ¬ t < T) :
    gaeFrom gamma tau rewards masks value_preds T g t = g := by
  rw [gaeFrom]
  simp [h]

theorem returnsFrom_of_lt (gamma : R) (rewards masks : ℕ → R)
    (T : ℕ) (base : R) (t : ℕ) (h : t < T) :
    returnsFrom gamma rewards masks T base t =
      returnsFrom gamma rewards masks T base (t + 1) * gamma * masks (t + 1)
        + rewards t := by
  rw [returnsFrom]
  simp [h]

theorem returnsFrom_of_ge (gamma : R) (rewards masks : ℕ → R)
    (T : ℕ) (base : R) (t : ℕ) (h : ¬ t < T) :
    returnsFrom gamma rewards masks T base t = base := by
  rw [returnsFrom]
  simp [h]

/-- Shifting the seed of `gaeFrom` across the topmost processed step. -/
theorem gaeFrom_shift (gamma tau : R) (rewards masks value_preds : ℕ → R)
    (T : ℕ) (g : R) :
    ∀ t, t ≤ T →
      gaeFrom gamma tau rewards masks value_preds (T + 1) g t =
        gaeFrom gamma tau rewards masks value_preds T
          (gaeFrom gamma tau rewards masks value_preds (T + 1) g T) t := by
  intro t
  generalize hk : T - t = k
  revert t
  induction k with
  | zero =>
      intro t hk ht
      have : t = T := by omega
      subst this
      rw [gaeFrom_of_ge gamma tau rewards masks value_preds t _ t (by omega)]
  | succ k ih =>
      intro t hk ht
      have hlt : t < T := by omega
      rw [gaeFrom_of_lt gamma tau rewards masks value_preds (T + 1) g t (by omega),
        gaeFrom_of_lt gamma tau rewards masks value_preds T _ t hlt,
        ih (t + 1) (by omega) (by omega)]

/-- Shifting the base of `returnsFrom` across the topmost processed step. -/
theorem returnsFrom_shift (gamma : R) (rewards masks : ℕ → R)
    (T : ℕ) (base : R) :
    ∀ t, t ≤ T →
      returnsFrom gamma rewards masks (T + 1) base t =
        returnsFrom gamma rewards masks T
          (returnsFrom gamma rewards masks (T + 1) base T) t := by
  intro t
  generalize hk : T - t = k
  revert t
  induction k with
  | zero =>
      intro t hk ht
      have : t = T := by omega
      subst this
      rw [returnsFrom_of_ge gamma rewards masks t _ t (by omega)]
  | succ k ih =>
      intro t hk ht
      have hlt : t < T := by omega
      rw [returnsFrom_of_lt gamma rewards masks (T + 1) base t (by omega),
        returnsFrom_of_lt gamma rewards masks T _ t hlt,
        ih (t + 1) (by omega) (by omega)]

/-- What the `use_gae` fold computes: the written entries follow the seeded
GAE recursion, entries at or above `T` keep their initial values, and the
final accumulator is the recursion's value at 0. -/
theorem foldl_gaeStep (gamma tau : R) (rewards masks value_preds : ℕ → R) :
    ∀ (T : ℕ) (g : R) (ret : ℕ → R) (t : ℕ),
      ((List.range T).reverse.foldl (gaeStep gamma tau rewards masks value_preds)
          (g, ret)).2 t =
        if t < T then
          gaeFrom gamma tau rewards masks value_preds T g t + value_preds t
        else ret t := by
  intro T
  induction T with
  | zero => intro g ret t; simp
  | succ T ih =>
      intro g ret t
      rw [List.range_succ, List.reverse_append]
      simp only [List.reverse_singleton, List.singleton_append, List.foldl_cons]
      rw [ih]
      have hseed : (gaeStep gamma tau rewards masks value_preds (g, ret) T).1 =
          gaeFrom gamma tau rewards masks value_preds (T + 1) g T := by
        rw [gaeFrom_of_lt gamma tau rewards masks value_preds (T + 1) g T
          (by omega), gaeFrom_of_ge gamma tau rewards masks value_preds (T + 1) g
          (T + 1) (by omega)]
        simp [gaeStep]
      by_cases h1 : t < T
      · rw [if_pos h1, if_pos (by omega : t < T + 1), hseed,
          gaeFrom_shift gamma tau rewards masks value_preds T g t (by omega)]
      · by_cases h2 : t = T
        · subst h2
          rw [if_neg h1, if_pos (by omega : t < t + 1), ← hseed]
          simp [gaeStep]
        · rw [if_neg h1, if_neg (by omega : ¬ t < T + 1)]
          simp only [gaeStep]
          rw [Function.update_noteq h2]

/-- What the non-GAE fold computes: written entries follow the bootstrap
recursion based at the initial value of index `T`. -/
theorem foldl_bootstrapStep (gamma : R) (rewards masks : ℕ → R) :
    ∀ (T : ℕ) (ret : ℕ → R) (t : ℕ),
      ((List.range T).reverse.foldl (bootstrapStep gamma rewards masks) ret) t =
        if t < T then returnsFrom gamma rewards masks T (ret T) t else ret t := by
  intro T
  induction T with
  | zero => intro ret t; simp
  | succ T ih =>
      intro ret t
      rw [List.range_succ, List.reverse_append]
      simp only [List.reverse_singleton, List.singleton_append, List.foldl_cons]
      rw [ih]
      have hbase : bootstrapStep gamma rewards masks ret T T =
          returnsFrom gamma rewards masks (T + 1) (ret (T + 1)) T := by
        rw [returnsFrom_of_lt gamma rewards masks (T + 1) _ T (by omega),
          returnsFrom_of_ge gamma rewards masks (T + 1) _ (T + 1) (by omega)]
        simp [bootstrapStep]
      by_cases h1 : t < T
      · rw [if_pos h1, if_pos (by omega : t < T + 1), hbase,
          returnsFrom_shift gamma rewards masks T (ret (T + 1)) t (by omega)]
      · by_cases h2 : t = T
        · subst h2
          rw [if_neg h1, if_pos (by omega : t < t + 1), hbase]
        · rw [if_neg h1, if_neg (by omega : ¬ t < T + 1)]
          simp only [bootstrapStep]
          rw [Function.update_noteq h2]

/-- C1: `compute_returns` with `use_gae` true first sets `value_preds[T] :=
next_value` and then, for every `t < T`, writes `returns[t] = gae_t +
value_preds[t]`, where the accumulator satisfies `gae_t = delta_t + gamma * tau
* masks[t+1] * gae_(t+1)` seeded with 0 above `T-1` and `delta_t = rewards[t] +
gamma * value_preds[t+1] * masks[t+1] - value_preds[t]`; with `use_gae` false
it sets `returns[T] := next_value` and, for every `t < T`, `returns[t] =
returns[t+1] * gamma * masks[t+1] + rewards[t]`.  In particular a single-step
rollout with `use_gae` true, `gamma = 1` and all masks 1 gives `returns[0] =
rewards[0] + next_value`. -/
theorem C1_compute_returns (T : ℕ) (rewards masks vp0 ret0 : ℕ → ℚ)
    (next_value gamma tau : ℚ) :
    ((compute_returns T rewards masks ⟨vp0, ret0⟩ next_value true gamma
        tau).value_preds = Function.update vp0 T next_value ∧
      (∀ t, t < T →
        (compute_returns T rewards masks ⟨vp0, ret0⟩ next_value true gamma
            tau).returns t
          = gaeFrom gamma tau rewards masks (Function.update vp0 T next_value)
              T 0 t + Function.update vp0 T next_value t)) ∧
    ((compute_returns T rewards masks ⟨vp0, ret0⟩ next_value false gamma
        tau).returns T = next_value ∧
      (∀ t, t < T →
        (compute_returns T rewards masks ⟨vp0, ret0⟩ next_value false gamma
            tau).returns t
          = (compute_returns T rewards masks ⟨vp0, ret0⟩ next_value false gamma
              tau).returns (t + 1) * gamma * masks (t + 1) + rewards t)) ∧
    (∀ r0 v0 v1 nv : ℚ,
      (compute_returns 1 (fun _ => r0) (fun _ => 1) ⟨fun _ => v0, fun _ => v1⟩
          nv true 1 tau).returns 0 = r0 + nv) := by
  refine ⟨⟨rfl, ?_⟩, ⟨?_, ?_⟩, ?_⟩
  · intro t ht
    show ((List.range T).reverse.foldl
        (gaeStep gamma tau rewards masks (Function.update vp0 T next_value))
        (0, ret0)).2 t = _
    rw [foldl_gaeStep, if_pos ht]
  · show ((List.range T).reverse.foldl (bootstrapStep gamma rewards masks)
        (Function.update ret0 T next_value)) T = next_value
    rw [foldl_bootstrapStep, if_neg (by omega), Function.update_same]
  · intro t ht
    show ((List.range T).reverse.foldl (bootstrapStep gamma rewards masks)
          (Function.update ret0 T next_value)) t
        = ((List.range T).reverse.foldl (bootstrapStep gamma rewards masks)
            (Function.update ret0 T next_value)) (t + 1) * gamma * masks (t + 1)
          + rewards t
    rw [foldl_bootstrapStep, foldl_bootstrapStep, if_pos ht,
      Function.update_same]
    by_cases h1 : t + 1 < T
    · rw [if_pos h1, returnsFrom_of_lt gamma rewards masks T next_value t ht]
    · have : t + 1 = T := by omega
      rw [if_neg h1, this, Function.update_same,
        returnsFrom_of_lt gamma rewards masks T next_value t ht, this,
        returnsFrom_of_ge gamma rewards masks T next_value T (by omega)]
  · intro r0 v0 v1 nv
    show ((List.range 1).reverse.foldl
        (gaeStep 1 tau (fun _ => r0) (fun _ => 1)
          (Function.update (fun _ => v0) 1 nv))
        (0, fun _ => v1)).2 0 = r0 + nv
    rw [foldl_gaeStep, if_pos (by omega),
      gaeFrom_of_lt 1 tau (fun _ => r0) (fun _ => 1) _ 1 0 0 (by omega),
      gaeFrom_of_ge 1 tau (fun _ => r0) (fun _ => 1) _ 1 0 1 (by omega)]
    simp [Function.update]

/-- Witness for C1 at `T = 1`: instantiates the GAE conjunct at `t = 0`. -/
theorem C1_compute_returns_witness :
    (0 < 1) ∧
    (compute_returns 1 (fun _ => (3 : ℚ)) (fun _ => 1) ⟨fun _ => 5, fun _ => 0⟩
        7 true 1 (1 / 2)).returns 0
      = gaeFrom 1 (1 / 2) (fun _ => 3) (fun _ => 1)
          (Function.update (fun _ => (5 : ℚ)) 1 7) 1 0 0
        + Function.update (fun _ => (5 : ℚ)) 1 7 0 :=
  ⟨by decide,
    (C1_compute_returns 1 (fun _ => 3) (fun _ => 1) (fun _ => 5) (fun _ => 0)
      7 1 (1 / 2)).1.2 0 (by decide)⟩

/-! ## RolloutStorage state machine (storage_device.py) -/

mutual
/-- A nested observation value handed to `insert_initial_observations`: either
a tensor leaf (one abstract tensor slice of type `α`) or a nested dict of
sensors. -/
inductive NestedObs (α : Type) where
  | tensor : α → NestedObs α
  | dict : ObsEntries α → NestedObs α

/-- Entries of a nested observation dict, in Python dict insertion order. -/
inductive ObsEntries (α : Type) where
  | nil : ObsEntries α
  | cons : String → NestedObs α → ObsEntries α → ObsEntries α
end

/-- Lookup in an association list modelling a Python dict (keys unique,
insertion order preserved). -/
def alistFind {β : Type} (k : String) : List (String × β) → Option β
  | [] => none
  | kv :: rest => if kv.1 = k then some kv.2 else alistFind k rest

/-- Update the value at an existing key of a Python dict, keeping its
position. -/
def alistSet {β : Type} (k : String) (v : β) :
    List (String × β) → List (String × β)
  | [] => []
  | kv :: rest => if kv.1 = k then (kv.1, v) :: rest else kv :: alistSet k v rest

/-- `RolloutStorage` (storage_device.py:13-58).  Time-indexed tensors are
total functions `ℕ → α` from the time axis into an abstract tensor-slice type
`α` (one `[N, ...]` slice).  PyTorch `narrow` returns a view sharing storage
with the original tensor, so the `unnarrow_data` side table is modelled by the
saved full capacity `num_steps` together with its non-emptiness (the tensor
entries themselves are shared); `unnarrow_data = none` models the empty
defaultdict. -/
structure RolloutStorage (α : Type) where
  num_steps : ℕ
  step : ℕ
  flatten_separator : String
  observations : List (String × (ℕ → α))
  flattened_spaces : List (String × List String)
  recurrent_hidden_states : ℕ → α
  rewards : ℕ → α
  value_preds : ℕ → α
  returns : ℕ → α
  action_log_probs : ℕ → α
  actions : ℕ → α
  prev_actions : ℕ → α
  masks : ℕ → α
  unnarrow_data : Option ℕ

/-- `RolloutStorage.__init__` (storage_device.py:16-58): fresh buffer of
capacity `num_steps`; all tensors zero except `masks` (ones), `step = 0`,
empty observation dict, empty `flattened_spaces` and `unnarrow_data`. -/
def RolloutStorage.make (α : Type) [Zero α] [One α] (num_steps : ℕ) :
    RolloutStorage α where
  num_steps := num_steps
  step := 0
  flatten_separator := "._AUTOFLATTEN_."
  observations := []
  flattened_spaces := []
  recurrent_hidden_states := fun _ => 0
  rewards := fun _ => 0
  value_preds := fun _ => 0
  returns := fun _ => 0
  action_log_probs := fun _ => 0
  actions := fun _ => 0
  prev_actions := fun _ => 0
  masks := fun _ => 1
  unnarrow_data := none

/-- The state touched by `insert_initial_observations`: the `observations`
dict and the `flattened_spaces` record. -/
structure ObsState (α : Type) where
  observations : List (String × (ℕ → α))
  flattened_spaces : List (String × List String)

/-- Leaf case of `RolloutStorage.insert_initial_observations`
(storage_device.py:98-120): for an unseen flattened key, lazily allocate a
zero tensor (appended in dict insertion order) and, for nested sensors
(`len(path) > 0`), assert the flattened name is not yet in `flattened_spaces`
and record the nested path `path + [sensor]`; in every non-error case copy the
tensor into the given timestep. -/
def insertTensorObs {α : Type} [Zero α] (st : ObsState α) (pre sensor : String)
    (path : List String) (v : α) (time_step : ℕ) : Except String (ObsState α) :=
  let sensor_name := pre ++ sensor
  match alistFind sensor_name st.observations with
  | some rows =>
      .ok ⟨alistSet sensor_name (Function.update rows time_step v)
        st.observations, st.flattened_spaces⟩
  | none =>
      let obs1 := st.observations ++ [(sensor_name, fun _ => (0 : α))]
      if path = [] then
        .ok ⟨alistSet sensor_name (Function.update (fun _ => (0 : α)) time_step
          v) obs1, st.flattened_spaces⟩
      else if (alistFind sensor_name st.flattened_spaces).isSome then
        .error ("new flattened name " ++ sensor_name ++
          " already existing in flattened spaces")
      else
        .ok ⟨alistSet sensor_name (Function.update (fun _ => (0 : α)) time_step
          v) obs1, st.flattened_spaces ++ [(sensor_name, path ++ [sensor])]⟩

/-- Recursive traversal of `insert_initial_observations`
(storage_device.py:88-120) over the nested observation dict in entry order,
threading the observation state; `pre` is the accumulated `prefix` argument
and `sep` is `self.flatten_separator`. -/
def insertObsWalk {α : Type} [Zero α] (sep : String) :
    ObsEntries α → ObsState α → String → List String → ℕ →
      Except String (ObsState α)
  | .nil, st, _, _, _ => .ok st
  | .cons sensor (.dict d) rest, st, pre, path, t =>
      match insertObsWalk sep d st (pre ++ sensor ++ sep) (path ++ [sensor])
          t with
      | .error e => .error e
      | .ok st1 => insertObsWalk sep rest st1 pre path t
  | .cons sensor (.tensor v) rest, st, pre, path, t =>
      match insertTensorObs st pre sensor path v t with
      | .error e => .error e
      | .ok st1 => insertObsWalk sep rest st1 pre path t

/-- `RolloutStorage.insert_initial_observations` (storage_device.py:88-120);
the method mutates only `self.observations` and `self.flattened_spaces`. -/
def insert_initial_observations {α : Type} [Zero α] (s : RolloutStorage α)
    (observations : ObsEntries α) (pre : String) (path : List String)
    (time_step : ℕ) : Except String (RolloutStorage α) :=
  match insertObsWalk s.flatten_separator observations
      ⟨s.observations, s.flattened_spaces⟩ pre path time_step with
  | .error e => .error e
  | .ok st => .ok { s with
      observations := st.observations
      flattened_spaces := st.flattened_spaces }

/-- `RolloutStorage.insert` (storage_device.py:122-146): next observations,
hidden states, masks and previous actions go to slot `step + 1`; actions,
log-probs, values and rewards to slot `step`; then
`step = (step + 1) % num_steps`. -/
def insert {α : Type} [Zero α] (s : RolloutStorage α)
    (observations : ObsEntries α)
    (recurrent_hidden_states actions action_log_probs value_preds rewards
      masks : α) : Except String (RolloutStorage α) :=
  match insert_initial_observations s observations "" [] (s.step + 1) with
  | .error e => .error e
  | .ok s1 => .ok { s1 with
      recurrent_hidden_states := Function.update s1.recurrent_hidden_states
        (s1.step + 1) recurrent_hidden_states
      actions := Function.update s1.actions s1.step actions
      prev_actions := Function.update s1.prev_actions (s1.step + 1) actions
      action_log_probs := Function.update s1.action_log_probs s1.step
        action_log_probs
      value_preds := Function.update s1.value_preds s1.step value_preds
      rewards := Function.update s1.rewards s1.step rewards
      masks := Function.update s1.masks (s1.step + 1) masks
      step := (s1.step + 1) % s1.num_steps }

/-- `RolloutStorage.narrow` (storage_device.py:159-191): asserts nothing is
narrowed yet; a buffer with `step == 0` is already complete and the method
returns early *without* populating `unnarrow_data`; otherwise it saves the
originals (modelled by the saved capacity, since narrowed tensors are views)
and truncates the capacity to `step`. -/
def narrow {α : Type} (s : RolloutStorage α) : Except String (RolloutStorage α) :=
  if s.unnarrow_data.isSome then
    .error "attempting to narrow narrowed rollouts"
  else if s.step = 0 then
    .ok s
  else
    .ok { s with unnarrow_data := some s.num_steps, num_steps := s.step }

/-- `RolloutStorage.unnarrow` (storage_device.py:193-227): asserts something
is narrowed, then restores the saved full-capacity tensors and `num_steps` and
empties `unnarrow_data`. -/
def unnarrow {α : Type} (s : RolloutStorage α) : Except String (RolloutStorage α) :=
  match s.unnarrow_data with
  | none => .error "attempting to unnarrow unnarrowed rollouts"
  | some saved_num_steps =>
      .ok { s with num_steps := saved_num_steps, unnarrow_data := none }

/-- `RolloutStorage.after_update` (storage_device.py:229-240): asserts
`step == 0`, copies the last timestep (index `num_steps`, i.e. `[-1]` of a
`num_steps + 1`-long tensor) into timestep 0 for every observation tensor, the
recurrent hidden states, the masks and the previous actions, and unnarrows if
something was narrowed. -/
def after_update {α : Type} (s : RolloutStorage α) :
    Except String (RolloutStorage α) :=
  if s.step ≠ 0 then
    .error "wrong number of steps in rollouts storage"
  else
    let s1 : RolloutStorage α := { s with
      observations := s.observations.map
        (fun kv => (kv.1, Function.update kv.2 0 (kv.2 s.num_steps)))
      recurrent_hidden_states := Function.update s.recurrent_hidden_states 0
        (s.recurrent_hidden_states s.num_steps)
      masks := Function.update s.masks 0 (s.masks s.num_steps)
      prev_actions := Function.update s.prev_actions 0
        (s.prev_actions s.num_steps) }
    if s1.unnarrow_data.isSome then unnarrow s1 else .ok s1

theorem insert_initial_observations_fields {α : Type} [Zero α]
    {s s1 : RolloutStorage α} {obs : ObsEntries α} {pre : String}
    {path : List String} {t : ℕ}
    (h : insert_initial_observations s obs pre path t = .ok s1) :
    s1.num_steps = s.num_steps ∧ s1.step = s.step ∧
    s1.unnarrow_data = s.unnarrow_data ∧
    s1.flatten_separator = s.flatten_separator ∧
    s1.recurrent_hidden_states = s.recurrent_hidden_states ∧
    s1.rewards = s.rewards ∧ s1.value_preds = s.value_preds ∧
    s1.returns = s.returns ∧ s1.action_log_probs = s.action_log_probs ∧
    s1.actions = s.actions ∧ s1.prev_actions = s.prev_actions ∧
    s1.masks = s.masks := by
  unfold insert_initial_observations at h
  cases hw : insertObsWalk s.flatten_separator obs
      ⟨s.observations, s.flattened_spaces⟩ pre path t with
  | error e => rw [hw] at h; cases h
  | ok st =>
      rw [hw] at h
      injection h with h
      subst h
      exact ⟨rfl, rfl, rfl, rfl, rfl, rfl, rfl, rfl, rfl, rfl, rfl, rfl⟩

theorem insert_fields {α : Type} [Zero α] {s s' : RolloutStorage α}
    {obs : ObsEntries α} {a1 a2 a3 a4 a5 a6 : α}
    (h : insert s obs a1 a2 a3 a4 a5 a6 = .ok s') :
    s'.step = (s.step + 1) % s.num_steps ∧ s'.num_steps = s.num_steps ∧
    s'.unnarrow_data = s.unnarrow_data := by
  unfold insert at h
  cases hw : insert_initial_observations s obs "" [] (s.step + 1) with
  | error e => rw [hw] at h; cases h
  | ok s1 =>
      rw [hw] at h
      injection h with h
      subst h
      obtain ⟨hns, hstep, hun, -⟩ := insert_initial_observations_fields hw
      exact ⟨by rw [hstep, hns], hns, hun⟩

/-- One rollout step's worth of `insert` arguments. -/
structure InsertArgs (α : Type) where
  observations : ObsEntries α
  recurrent_hidden_states : α
  actions : α
  action_log_probs : α
  value_preds : α
  rewards : α
  masks : α

/-- Sequential `insert` calls, as performed by one rollout's worth of
`collect_rollout_step` calls (engine.py:613-614). -/
def insertRun {α : Type} [Zero α] (s : RolloutStorage α) :
    List (InsertArgs α) → Except String (RolloutStorage α)
  | [] => .ok s
  | a :: rest =>
      match insert s a.observations a.recurrent_hidden_states a.actions
          a.action_log_probs a.value_preds a.rewards a.masks with
      | .error e => .error e
      | .ok s' => insertRun s' rest

theorem insertRun_fields {α : Type} [Zero α] :
    ∀ (l : List (InsertArgs α)) (s s' : RolloutStorage α),
      s.step % s.num_steps = s.step → insertRun s l = .ok s' →
      s'.step = (s.step + l.length) % s.num_steps ∧
      s'.num_steps = s.num_steps ∧ s'.unnarrow_data = s.unnarrow_data := by
  intro l
  induction l with
  | nil =>
      intro s s' hs h
      injection h with h
      subst h
      simpa using hs.symm
  | cons a rest ih =>
      intro s s' hs h
      unfold insertRun at h
      cases hw : insert s a.observations a.recurrent_hidden_states a.actions
          a.action_log_probs a.value_preds a.rewards a.masks with
      | error e => rw [hw] at h; cases h
      | ok s1 =>
          rw [hw] at h
          obtain ⟨h1step, h1ns, h1un⟩ := insert_fields hw
          obtain ⟨h2step, h2ns, h2un⟩ := ih s1 s'
            (by rw [h1step, h1ns, Nat.mod_mod_of_dvd _ dvd_rfl]) h
          refine ⟨?_, by rw [h2ns, h1ns], by rw [h2un, h1un]⟩
          rw [h2step, h1step, h1ns, List.length_cons]
          conv_rhs => rw [show s.step + (rest.length + 1)
            = s.step + 1 + rest.length by ring]
          conv_lhs => rw [Nat.add_mod]
          conv_rhs => rw [Nat.add_mod]
          rw [Nat.mod_mod_of_dvd _ dvd_rfl]

/-- C3: starting from a fresh buffer of capacity `T ≥ 1`, after one
`insert_initial_observations` and exactly `T` successful `insert` calls the
write cursor `step` is 0 and `after_update` succeeds, copying timestep `T`
into timestep 0 for every observation tensor, the recurrent hidden states, the
masks and the previous actions; whereas after `k` inserts with `0 < k < T`,
`after_update` fails its assertion guard. -/
theorem C3_full_rollout_after_update {α : Type} [Zero α] [One α] (T : ℕ)
    (hT : 1 ≤ T) (init : ObsEntries α) (s0 : RolloutStorage α)
    (h0 : insert_initial_observations (RolloutStorage.make α T) init "" [] 0
      = .ok s0) :
    (∀ (l : List (InsertArgs α)) (sT : RolloutStorage α), l.length = T →
        insertRun s0 l = .ok sT →
        sT.step = 0 ∧
        after_update sT = .ok { sT with
          observations := sT.observations.map
            (fun kv => (kv.1, Function.update kv.2 0 (kv.2 T)))
          recurrent_hidden_states :=
            Function.update sT.recurrent_hidden_states 0
              (sT.recurrent_hidden_states T)
          masks := Function.update sT.masks 0 (sT.masks T)
          prev_actions := Function.update sT.prev_actions 0
            (sT.prev_actions T) }) ∧
    (∀ (l : List (InsertArgs α)) (sk : RolloutStorage α) (k : ℕ),
        l.length = k → 0 < k → k < T → insertRun s0 l = .ok sk →
        ∃ msg, after_update sk = .error msg) := by
  obtain ⟨h0ns, h0step, h0un, -⟩ := insert_initial_observations_fields h0
  have hs0 : s0.step % s0.num_steps = s0.step := by
    rw [h0step, h0ns]
    rfl
  constructor
  · intro l sT hlen hrun
    obtain ⟨hstep, hns, hun⟩ := insertRun_fields l s0 sT hs0 hrun
    rw [hlen, h0step, h0ns] at hstep
    have hTns : sT.num_steps = T := by rw [hns, h0ns]; rfl
    have hstep0 : sT.step = 0 := by
      rw [hstep]
      show (0 + T) % T = 0
      simp
    refine ⟨hstep0, ?_⟩
    unfold after_update
    rw [if_neg (by rw [hstep0]; simp)]
    have hunT : sT.unnarrow_data = none := by rw [hun, h0un]; rfl
    simp only [hunT, Option.isSome_none, Bool.false_eq_true, if_false, hTns]
  · intro l sk k hlen hk0 hkT hrun
    obtain ⟨hstep, hns, hun⟩ := insertRun_fields l s0 sk hs0 hrun
    rw [hlen, h0step, h0ns] at hstep
    have hstepk : sk.step = k := by
      rw [hstep]
      show (0 + k) % T = k
      simp [Nat.mod_eq_of_lt hkT]
    refine ⟨"wrong number of steps in rollouts storage", ?_⟩
    unfold after_update
    rw [if_pos (by rw [hstepk]; omega)]

/-- Concrete inputs for the C3 witness: one top-level sensor. -/
def c3Obs : ObsEntries ℚ := .cons "a" (.tensor 5) .nil

/-- Concrete `insert` arguments for the C3 witness. -/
def c3Args : InsertArgs ℚ := ⟨.cons "a" (.tensor 6) .nil, 1, 2, 3, 4, 5, 1⟩

/-- The buffer after the initial observation insertion of the C3 witness. -/
def c3s0 : RolloutStorage ℚ :=
  match insert_initial_observations (RolloutStorage.make ℚ 1) c3Obs "" [] 0 with
  | .ok s => s
  | .error _ => RolloutStorage.make ℚ 1

/-- The buffer after one full rollout (capacity 1) of the C3 witness. -/
def c3sT : RolloutStorage ℚ :=
  match insertRun c3s0 [c3Args] with
  | .ok s => s
  | .error _ => RolloutStorage.make ℚ 1

/-- Witness for C3 at `T = 1`: the cursor is 0 after one full rollout. -/
theorem C3_full_rollout_after_update_witness : c3sT.step = 0 :=
  ((C3_full_rollout_after_update 1 (by decide) c3Obs c3s0 rfl).1
    [c3Args] c3sT rfl rfl).1

/-- C8 counterexample: on a fresh buffer (write cursor `step = 0`), `narrow`
returns early without recording anything in `unnarrow_data`, so a second
`narrow` with no intervening `unnarrow` does *not* fail the assertion — both
calls succeed, refuting the claim for the `step = 0` state it explicitly
includes. -/
theorem C8_second_narrow_succeeds_at_step_zero :
    narrow (RolloutStorage.make ℚ 2) = Except.ok (RolloutStorage.make ℚ 2) ∧
    Except.bind (narrow (RolloutStorage.make ℚ 2)) narrow
      = Except.ok (RolloutStorage.make ℚ 2) :=
  ⟨rfl, rfl⟩

/-- C8 (amended): `unnarrow` on a buffer with nothing narrowed always fails
its assertion; and a second `narrow` without an intervening `unnarrow` fails
its assertion provided the first `narrow` was called in a state with
`step ≠ 0` (when `step = 0` the first call returns early, records nothing, and
a repeated `narrow` succeeds). -/
theorem C8_narrow_unnarrow_guards {α : Type} (s s1 : RolloutStorage α) :
    (s.unnarrow_data = none → ∃ msg, unnarrow s = .error msg) ∧
    (s.step ≠ 0 → narrow s = .ok s1 → ∃ msg, narrow s1 = .error msg) := by
  constructor
  · intro hun
    refine ⟨"attempting to unnarrow unnarrowed rollouts", ?_⟩
    unfold unnarrow
    rw [hun]
  · intro hstep hn
    unfold narrow at hn
    by_cases hun : s.unnarrow_data.isSome
    · rw [if_pos hun] at hn
      cases hn
    · rw [if_neg hun, if_neg hstep] at hn
      injection hn with hn
      subst hn
      exact ⟨"attempting to narrow narrowed rollouts", rfl⟩

/-- A buffer mid-rollout (cursor at 1) for the C8 witness. -/
def c8s : RolloutStorage ℚ := { RolloutStorage.make ℚ 2 with step := 1 }

/-- The C8 witness buffer after a first (real) `narrow`. -/
def c8s1 : RolloutStorage ℚ :=
  match narrow c8s with
  | .ok s => s
  | .error _ => c8s

/-- Witness for the amended C8: both guards fire on concrete buffers. -/
theorem C8_narrow_unnarrow_guards_witness :
    (∃ msg, unnarrow c8s = .error msg) ∧
    (∃ msg, narrow c8s1 = .error msg) :=
  ⟨(C8_narrow_unnarrow_guards c8s c8s1).1 rfl,
    (C8_narrow_unnarrow_guards c8s c8s1).2 (by decide) rfl⟩

/-- The colliding nested observations of C9: the sensor paths
`["a", "b._AUTOFLATTEN_.c"]` and `["a", "b", "c"]` are distinct but both
flatten to the key `"a._AUTOFLATTEN_.b._AUTOFLATTEN_.c"`. -/
def c9Obs : ObsEntries ℚ :=
  .cons "a" (.dict (.cons "b._AUTOFLATTEN_.c" (.tensor 5)
    (.cons "b" (.dict (.cons "c" (.tensor 7) .nil)) .nil))) .nil

/-- C9: evaluating `insert_initial_observations` on the duplicate flattened
key collision `c9Obs`.  The call *succeeds* — when the second colliding sensor
is reached its flattened name is already in `observations`, so the allocation
branch containing the `assert sensor_name not in self.flattened_spaces` guard
is skipped entirely — and the second tensor (7) silently overwrites the first
(5) at timestep 0, contradicting the claimed immediate assertion failure (the
in-code assertion shows that failing was the intent). -/
theorem C9_duplicate_key_overwrites :
    (insert_initial_observations (RolloutStorage.make ℚ 1) c9Obs "" [] 0).map
        (fun s =>
          ((alistFind "a._AUTOFLATTEN_.b._AUTOFLATTEN_.c" s.observations).map
              (fun rows => rows 0),
            s.flattened_spaces))
      = Except.ok (some 7,
          [("a._AUTOFLATTEN_.b._AUTOFLATTEN_.c", ["a", "b._AUTOFLATTEN_.c"])])
      := rfl

/-! ## Teacher forcing (engine.py:491-514, 536-550) -/

/-- Elementwise `Engine.apply_teacher_forcing` (engine.py:491-514) for one
worker element: `bern` is the element's Bernoulli draw (sampled with success
probability `teacher_forcing(step_count)` and cast to long, so 0 or 1),
`expert_action_exists` the second channel of the `expert_action` observation,
`expert_action` its first channel, `sampled` the policy's sampled action.
Computes `teacher_forcing_mask = bern * expert_action_exists` and the action
`mask * expert + (1 - mask) * sampled`; returns the action and the mask. -/
def apply_teacher_forcing (bern expert_action_exists expert_action sampled :
    ℤ) : ℤ × ℤ :=
  let teacher_forcing_mask := bern * expert_action_exists
  (teacher_forcing_mask * expert_action
    + (1 - teacher_forcing_mask) * sampled, teacher_forcing_mask)

/-- The action-selection slice of `Engine.collect_rollout_step`
(engine.py:536-550): teacher forcing is applied only when a schedule is
present and evaluates positively at the current step count. -/
def collect_step_action (teacher_forcing : Option (ℕ → ℚ)) (step_count : ℕ)
    (bern expert_action_exists expert_action sampled : ℤ) : ℤ :=
  match teacher_forcing with
  | some schedule =>
      if 0 < schedule step_count then
        (apply_teacher_forcing bern expert_action_exists expert_action
          sampled).1
      else sampled
  | none => sampled

/-- C6: with an active teacher-forcing schedule, per element the final action
is the expert action when the Bernoulli draw succeeds and the
expert-action-exists flag is nonzero; whenever the flag is zero the final
action is the originally sampled action regardless of the draw; and the final
action can differ from the sampled one only if the draw succeeded, the flag
was nonzero, and the result is the expert action. -/
theorem C6_teacher_forcing (schedule : ℕ → ℚ) (step_count : ℕ)
    (bern expert_action_exists expert_action sampled : ℤ)
    (hactive : 0 < schedule step_count)
    (hb : bern = 0 ∨ bern = 1)
    (he : expert_action_exists = 0 ∨ expert_action_exists = 1) :
    (expert_action_exists = 0 →
      collect_step_action (some schedule) step_count bern expert_action_exists
        expert_action sampled = sampled) ∧
    (bern = 1 → expert_action_exists = 1 →
      collect_step_action (some schedule) step_count bern expert_action_exists
        expert_action sampled = expert_action) ∧
    (bern = 0 →
      collect_step_action (some schedule) step_count bern expert_action_exists
        expert_action sampled = sampled) ∧
    (collect_step_action (some schedule) step_count bern expert_action_exists
        expert_action sampled ≠ sampled →
      bern = 1 ∧ expert_action_exists ≠ 0 ∧
        collect_step_action (some schedule) step_count bern
          expert_action_exists expert_action sampled = expert_action) := by
  have hred : collect_step_action (some schedule) step_count bern
      expert_action_exists expert_action sampled
      = bern * expert_action_exists * expert_action
        + (1 - bern * expert_action_exists) * sampled := by
    simp only [collect_step_action, if_pos hactive]
    rfl
  rw [hred]
  rcases hb with hb | hb <;> rcases he with he | he <;> subst hb <;> subst he
  · exact ⟨fun _ => by ring, fun h _ => absurd h (by decide),
      fun _ => by ring, fun h => absurd (by ring) h⟩
  · exact ⟨fun h => absurd h (by decide), fun h _ => absurd h (by decide),
      fun _ => by ring, fun h => absurd (by ring) h⟩
  · exact ⟨fun _ => by ring, fun _ h => absurd h (by decide),
      fun h => absurd h (by decide), fun h => absurd (by ring) h⟩
  · exact ⟨fun h => absurd h (by decide), fun _ _ => by ring,
      fun h => absurd h (by decide), fun _ => ⟨rfl, by decide, by ring⟩⟩

/-- Witness for C6 at a concrete successful draw with an existing expert
action. -/
theorem C6_teacher_forcing_witness :
    collect_step_action (some (fun _ => (1 : ℚ) / 2)) 10 1 1 3 9 = 3 :=
  (C6_teacher_forcing (fun _ => (1 : ℚ) / 2) 10 1 1 3 9 (by norm_num)
    (Or.inr rfl) (Or.inr rfl)).2.1 rfl rfl

/-! ## Update-step loss guard (engine.py:452-484) -/

/-- The shape of the summed total loss as the Python type checks see it:
whether its runtime class is `torch.FloatTensor`/`torch.cuda.FloatTensor`,
whether it is a scalar (a single element), and whether its value is finite. -/
structure TotalLoss where
  is_float_tensor : Bool
  is_scalar : Bool
  is_finite : Bool
deriving DecidableEq

/-- Outcome of one mini-batch tail of `Engine.update`: whether the
`warnings.warn` branch ran, whether backward / infinity-norm gradient clipping
to `max_grad_norm` / `optimizer.step` ran, and the increment applied to
`backprop_count`. -/
structure UpdateStepResult where
  warned : Bool
  stepped : Bool
  backprop_increment : ℕ
deriving DecidableEq

/-- Tail of the per-batch body of `Engine.update` (engine.py:469-484): the
*only* guard is `isinstance(total_loss, (torch.cuda.)FloatTensor)`.  If it
holds, `total_loss.item()` is read (raising on a non-scalar tensor — modelled
as `.error`), then backward, gradient clipping and `optimizer.step()` run and
`backprop_count` increments; otherwise a warning is issued and the step is
skipped.  Finiteness of the value is never inspected. -/
def update_batch_step (total_loss : TotalLoss) :
    Except String UpdateStepResult :=
  if total_loss.is_float_tensor then
    if total_loss.is_scalar then .ok ⟨false, true, 1⟩
    else .error "item() called on a tensor with more than one element"
  else .ok ⟨true, false, 0⟩

/-- C7 counterexample: a *non-finite* scalar FloatTensor total loss is not a
well-formed loss in the claim's sense, yet the code performs the full
backward/clip/optimizer step with no warning and increments `backprop_count`
(the `isinstance` guard only checks the runtime class, never finiteness),
contradicting the claimed warn-and-skip behavior. -/
theorem C7_nonfinite_loss_still_steps :
    ¬ ((⟨true, true, false⟩ : TotalLoss).is_float_tensor = true ∧
        (⟨true, true, false⟩ : TotalLoss).is_scalar = true ∧
        (⟨true, true, false⟩ : TotalLoss).is_finite = true) ∧
    update_batch_step ⟨true, true, false⟩ = Except.ok ⟨false, true, 1⟩ :=
  ⟨fun h => absurd h.2.2 (by decide), rfl⟩

/-- C7 (amended): the warn-and-skip branch triggers exactly when the total
loss is not a `FloatTensor` *instance* (e.g. a double tensor or a plain
float); every FloatTensor-classed scalar loss — finite or not — takes the full
backward pass, infinity-norm gradient clipping and optimizer step and
increments `backprop_count` by 1. -/
theorem C7_update_loss_guard (total_loss : TotalLoss) :
    (total_loss.is_float_tensor = false →
      update_batch_step total_loss = Except.ok ⟨true, false, 0⟩) ∧
    (total_loss.is_float_tensor = true → total_loss.is_scalar = true →
      update_batch_step total_loss = Except.ok ⟨false, true, 1⟩) := by
  obtain ⟨f, s, fin⟩ := total_loss
  constructor
  · intro h
    subst h
    rfl
  · intro h1 h2
    subst h1
    subst h2
    rfl

/-- Witness for the amended C7: both branches at concrete losses. -/
theorem C7_update_loss_guard_witness :
    update_batch_step ⟨false, true, true⟩ = Except.ok ⟨true, false, 0⟩ ∧
    update_batch_step ⟨true, true, true⟩ = Except.ok ⟨false, true, 1⟩ :=
  ⟨(C7_update_loss_guard ⟨false, true, true⟩).1 rfl,
    (C7_update_loss_guard ⟨true, true, true⟩).2 rfl rfl⟩

/-! ## Engine: checkpointing, seeds, pipeline scheduling (engine.py) -/

/-- Modelled from the spec: a training-pipeline stage's hard step budget
`max_stage_steps` (the stage's `end_criterion`).  `PipelineStage` lives in
`utils/experiment_utils.py`, which is not among the sources; only the budget
field needed by the scheduling claim is modelled. -/
structure PipelineStage where
  max_stage_steps : ℕ

/-- The `Engine` state (engine.py:56-234) restricted to the fields the
checkpoint/seed/scheduling claims touch.  Model parameters (`M`), optimizer
state (`O`) and LR-scheduler state (`S`) are abstract.  The Python `random`
module's global generator is an abstract state `rngState : ℤ` threaded
explicitly; `vector_tasks_seeds` records the seed list last pushed to the
vectorized tasks via `set_seeds`. -/
structure Engine (M O S : Type) where
  mode : String
  seed : Option ℤ
  rngState : ℤ
  num_processes : ℕ
  pipeline_stages : List PipelineStage
  current_pipeline_stage : ℕ
  experiment_name : String
  local_start_time_str : String
  total_updates : ℕ
  pipeline_stage : ℕ
  rollout_count : ℕ
  backprop_count : ℕ
  step_count : ℕ
  total_steps : ℕ
  model_state : M
  optimizer_state : O
  scheduler_state : Option S
  last_scheduler_steps : Option ℕ
  vector_tasks_seeds : Option (List ℤ)

/-- `Engine.worker_seeds` (engine.py:235-238):
`[random.randint(0, 2**31 - 1) for _ in range(nprocesses)]`.  `nextInt`
performs one `randint` draw on the global generator, returning the drawn
value and the advanced state; the function returns the drawn list and the
final state. -/
def worker_seeds (nextInt : ℤ → ℤ × ℤ) : ℕ → ℤ → List ℤ × ℤ
  | 0, st => ([], st)
  | n + 1, st =>
      let d := nextInt st
      let r := worker_seeds nextInt n d.2
      (d.1 :: r.1, r.2)

/-- The `save_dict` persisted by `checkpoint_save` (engine.py:295-313); a
missing optional key is `none`. -/
structure Checkpoint (M O S : Type) where
  total_updates : ℕ
  total_steps : ℕ
  pipeline_stage : ℕ
  rollout_count : ℕ
  backprop_count : ℕ
  step_count : ℕ
  local_start_time_str : String
  optimizer_state_dict : O
  model_state_dict : M
  trainer_seed : Option ℤ
  worker_seeds : Option (List ℤ)
  scheduler_state : Option S
  scheduler_steps : Option ℕ

/-- Result of `checkpoint_save` (engine.py:271-316): the mutated engine, the
persisted dict, and the stage/step/seed components of the checkpoint filename
`exp_..__time_..__stage_{stage}__steps_{steps}__seed_{seed}.pt`. -/
structure SaveResult (M O S : Type) where
  engine : Engine M O S
  ckpt : Checkpoint M O S
  path_stage : ℕ
  path_steps : ℕ
  path_seed : Option ℤ

/-- `Engine.checkpoint_save` (engine.py:271-316).  `seedFn` models `set_seed`
(`utils/experiment_utils.py`, not among the sources: modelled from the spec
as deterministically re-seeding the global generator).  When a seed is set:
draw a fresh trainer seed with `worker_seeds(1)`, re-seed the generator with
it, regenerate the per-worker seed list and push it to the vectorized tasks;
the save dict records the new trainer seed and worker-seed list, and the
filename carries the new seed. -/
def checkpoint_save {M O S : Type} (seedFn : ℤ → ℤ) (nextInt : ℤ → ℤ × ℤ)
    (e : Engine M O S) : SaveResult M O S :=
  match e.seed with
  | some _ =>
      let draw := worker_seeds nextInt 1 e.rngState
      let newSeed := draw.1.headI
      let ws := worker_seeds nextInt e.num_processes (seedFn newSeed)
      { engine := { e with
          seed := some newSeed
          rngState := ws.2
          vector_tasks_seeds := some ws.1 }
        ckpt := {
          total_updates := e.total_updates
          total_steps := e.total_steps
          pipeline_stage := e.pipeline_stage
          rollout_count := e.rollout_count
          backprop_count := e.backprop_count
          step_count := e.step_count
          local_start_time_str := e.local_start_time_str
          optimizer_state_dict := e.optimizer_state
          model_state_dict := e.model_state
          trainer_seed := some newSeed
          worker_seeds := some ws.1
          scheduler_state := e.scheduler_state
          scheduler_steps := match e.scheduler_state with
            | some _ => e.last_scheduler_steps
            | none => none }
        path_stage := e.pipeline_stage
        path_steps := e.total_steps + e.step_count
        path_seed := some newSeed }
  | none =>
      { engine := e
        ckpt := {
          total_updates := e.total_updates
          total_steps := e.total_steps
          pipeline_stage := e.pipeline_stage
          rollout_count := e.rollout_count
          backprop_count := e.backprop_count
          step_count := e.step_count
          local_start_time_str := e.local_start_time_str
          optimizer_state_dict := e.optimizer_state
          model_state_dict := e.model_state
          trainer_seed := none
          worker_seeds := none
          scheduler_state := e.scheduler_state
          scheduler_steps := match e.scheduler_state with
            | some _ => e.last_scheduler_steps
            | none => none }
        path_stage := e.pipeline_stage
        path_steps := e.total_steps + e.step_count
        path_seed := none }

/-- The scheduler tail of `checkpoint_load` (engine.py:352-354): when the
engine has a scheduler, read `scheduler_state` and `scheduler_steps` from the
checkpoint dict (a missing key is a `KeyError`, modelled as `.error`). -/
def load_scheduler {M O S : Type} (e : Engine M O S) (ckpt : Checkpoint M O S) :
    Except String (Engine M O S) :=
  match e.scheduler_state with
  | none => .ok e
  | some _ =>
      match ckpt.scheduler_state, ckpt.scheduler_steps with
      | some ss, some steps =>
          .ok { e with
            scheduler_state := some ss
            last_scheduler_steps := some steps }
      | _, _ => .error "KeyError: scheduler_state"

/-- `Engine.checkpoint_load` (engine.py:318-354) on a deserialized checkpoint
dict: model parameters, `step_count` and `total_steps` are restored in every
mode; in train mode the optimizer state, counters, stage index (also pushed
into `training_pipeline.current_pipeline_stage`) and trainer seed are
restored, the per-worker seed list is re-derived by re-seeding with the
stored trainer seed and drawing `num_processes` seeds and asserted equal to
the stored list, and scheduler state is restored separately. -/
def checkpoint_load {M O S : Type} (seedFn : ℤ → ℤ) (nextInt : ℤ → ℤ × ℤ)
    (e : Engine M O S) (ckpt : Checkpoint M O S) :
    Except String (Engine M O S) :=
  let e1 : Engine M O S := { e with
    model_state := ckpt.model_state_dict
    step_count := ckpt.step_count
    total_steps := ckpt.total_steps }
  if e.mode = "train" then
    let e2 : Engine M O S := { e1 with
      optimizer_state := ckpt.optimizer_state_dict
      backprop_count := ckpt.backprop_count
      rollout_count := ckpt.rollout_count
      pipeline_stage := ckpt.pipeline_stage
      total_updates := ckpt.total_updates
      local_start_time_str := ckpt.local_start_time_str
      current_pipeline_stage := ckpt.pipeline_stage
      seed := ckpt.trainer_seed }
    match ckpt.trainer_seed with
    | some s =>
        let ws := worker_seeds nextInt e.num_processes (seedFn s)
        if some ws.1 = ckpt.worker_seeds then
          load_scheduler { e2 with
            rngState := ws.2
            vector_tasks_seeds := some ws.1 } ckpt
        else .error "worker seeds not matching stored seeds"
    | none => load_scheduler e2 ckpt
  else .ok e1

/-- Modelled from the spec: iterating `self.training_pipeline`
(`for stage in self.training_pipeline`, engine.py:809) yields the stages from
`current_pipeline_stage` onward — the persisted stage index resumes the
curriculum mid-stream (`TrainingPipeline` lives in
`utils/experiment_utils.py`, not among the sources). -/
def remaining_stages {M O S : Type} (e : Engine M O S) : List PipelineStage :=
  e.pipeline_stages.drop e.current_pipeline_stage

/-- `num_rollouts` as computed by `Engine.setup_stage` (engine.py:695-697):
`(stage_task_steps // steps_in_rollout) // num_processes`. -/
def num_rollouts_of (stage_task_steps steps_in_rollout num_processes : ℕ) :
    ℕ :=
  stage_task_steps / steps_in_rollout / num_processes

/-- Trace record of one stage executed by `run_pipeline`: the stage index,
the rollout counter `train` started from, the counter when the stage's train
loop finished, and the stage's rollout budget. -/
structure StageRun where
  stage_index : ℕ
  start_rollout_count : ℕ
  end_rollout_count : ℕ
  num_rollouts : ℕ

/-- The `while self.rollout_count < self.num_rollouts` loop of `Engine.train`
(engine.py:612-654) with the per-rollout work abstracted: the loop leaves the
counter at `num_rollouts` (or where it already was, if no budget remains). -/
def train_rollout_loop (rollout_count num_rollouts : ℕ) : ℕ :=
  max rollout_count num_rollouts

/-- One iteration of the stage loop of `run_pipeline` (engine.py:809-844):
run the stage's train loop from the current rollout counter, then advance the
counters exactly as engine.py:838-844 (the `current_pipeline_stage` bump
models the pipeline iterator advancing). -/
def run_stage {M O S : Type} (steps_in_rollout : ℕ) (e : Engine M O S)
    (stage : PipelineStage) (idx : ℕ) : Engine M O S × StageRun :=
  let nr := num_rollouts_of stage.max_stage_steps steps_in_rollout
    e.num_processes
  let rc := train_rollout_loop e.rollout_count nr
  ({ e with
      total_updates := e.total_updates + nr
      pipeline_stage := e.pipeline_stage + 1
      current_pipeline_stage := e.current_pipeline_stage + 1
      rollout_count := 0
      backprop_count := 0
      total_steps := e.total_steps + e.step_count
      step_count := 0 },
    ⟨idx, e.rollout_count, rc, nr⟩)

/-- The stage loop of `run_pipeline`, producing the per-stage trace. -/
def run_stages {M O S : Type} (steps_in_rollout : ℕ) :
    Engine M O S → List PipelineStage → ℕ → Engine M O S × List StageRun
  | e, [], _ => (e, [])
  | e, stage :: rest, idx =>
      let r := run_stage steps_in_rollout e stage idx
      let r2 := run_stages steps_in_rollout r.1 rest (idx + 1)
      (r2.1, r.2 :: r2.2)

/-- `Engine.run_pipeline` (engine.py:794-846) skeleton: optionally load the
given checkpoint, then run every remaining pipeline stage in order. -/
def run_pipeline {M O S : Type} (seedFn : ℤ → ℤ) (nextInt : ℤ → ℤ × ℤ)
    (steps_in_rollout : ℕ) (e : Engine M O S)
    (ckpt : Option (Checkpoint M O S)) :
    Except String (Engine M O S × List StageRun) :=
  match ckpt with
  | none => .ok (run_stages steps_in_rollout e (remaining_stages e)
      e.current_pipeline_stage)
  | some c =>
      match checkpoint_load seedFn nextInt e c with
      | .error msg => .error msg
      | .ok e1 => .ok (run_stages steps_in_rollout e1 (remaining_stages e1)
          e1.current_pipeline_stage)

theorem load_scheduler_fields {M O S : Type} (e : Engine M O S)
    (ckpt : Checkpoint M O S)
    (h1 : e.scheduler_state.isSome → ckpt.scheduler_state.isSome)
    (h2 : e.scheduler_state.isSome → ckpt.scheduler_steps.isSome) :
    ∃ g, load_scheduler e ckpt = .ok g ∧ g.mode = e.mode ∧ g.seed = e.seed ∧
      g.rngState = e.rngState ∧ g.num_processes = e.num_processes ∧
      g.pipeline_stages = e.pipeline_stages ∧
      g.current_pipeline_stage = e.current_pipeline_stage ∧
      g.total_updates = e.total_updates ∧
      g.pipeline_stage = e.pipeline_stage ∧
      g.rollout_count = e.rollout_count ∧
      g.backprop_count = e.backprop_count ∧
      g.step_count = e.step_count ∧ g.total_steps = e.total_steps ∧
      g.model_state = e.model_state ∧
      g.optimizer_state = e.optimizer_state ∧
      g.vector_tasks_seeds = e.vector_tasks_seeds := by
  unfold load_scheduler
  cases hes : e.scheduler_state with
  | none =>
      exact ⟨e, rfl, rfl, rfl, rfl, rfl, rfl, rfl, rfl, rfl, rfl, rfl, rfl,
        rfl, rfl, rfl, rfl⟩
  | some s =>
      obtain ⟨ss, hss⟩ := Option.isSome_iff_exists.mp (h1 (by rw [hes]; rfl))
      obtain ⟨sst, hsst⟩ := Option.isSome_iff_exists.mp (h2 (by rw [hes]; rfl))
      rw [hss, hsst]
      exact ⟨_, rfl, rfl, rfl, rfl, rfl, rfl, rfl, rfl, rfl, rfl, rfl, rfl,
        rfl, rfl, rfl, rfl⟩

/-- C4: `checkpoint_save` followed by `checkpoint_load` of the produced
checkpoint into a train-mode engine with the same worker count restores
`total_steps`, `pipeline_stage`, `step_count`, `total_updates`,
`rollout_count`, `backprop_count`, the model parameters and the optimizer
state to exactly their values at save time; and when a global seed is set,
the worker-seed list re-derived at load time (seeding the RNG with the stored
trainer seed and drawing `num_processes` seeds) equals the stored list, so
the load's explicit assertion passes rather than erroring. -/
theorem C4_checkpoint_roundtrip {M O S : Type} (seedFn : ℤ → ℤ)
    (nextInt : ℤ → ℤ × ℤ) (e f : Engine M O S)
    (hem : e.mode = "train") (hfm : f.mode = "train")
    (hnp : f.num_processes = e.num_processes)
    (hs1 : f.scheduler_state.isSome → e.scheduler_state.isSome)
    (hs2 : f.scheduler_state.isSome → e.last_scheduler_steps.isSome) :
    ∃ g, checkpoint_load seedFn nextInt f
        (checkpoint_save seedFn nextInt e).ckpt = .ok g ∧
      g.total_steps = e.total_steps ∧ g.pipeline_stage = e.pipeline_stage ∧
      g.step_count = e.step_count ∧ g.total_updates = e.total_updates ∧
      g.rollout_count = e.rollout_count ∧
      g.backprop_count = e.backprop_count ∧
      g.model_state = e.model_state ∧
      g.optimizer_state = e.optimizer_state ∧
      (∀ s0, e.seed = some s0 →
        ∃ ts wlist,
          (checkpoint_save seedFn nextInt e).ckpt.trainer_seed = some ts ∧
          (checkpoint_save seedFn nextInt e).ckpt.worker_seeds = some wlist ∧
          (worker_seeds nextInt f.num_processes (seedFn ts)).1 = wlist) := by
  cases hse : e.seed with
  | none =>
      simp only [checkpoint_save, hse]
      simp only [checkpoint_load, if_pos hfm]
      obtain ⟨g, hok, -, -, -, -, -, -, htu, hps, hrc, hbc, hsc, hts, hms,
        hos, -⟩ :=
        load_scheduler_fields (M := M) (O := O) (S := S)
          { f with
            model_state := e.model_state
            step_count := e.step_count
            total_steps := e.total_steps
            optimizer_state := e.optimizer_state
            backprop_count := e.backprop_count
            rollout_count := e.rollout_count
            pipeline_stage := e.pipeline_stage
            total_updates := e.total_updates
            local_start_time_str := e.local_start_time_str
            current_pipeline_stage := e.pipeline_stage
            seed := none }
          { total_updates := e.total_updates
            total_steps := e.total_steps
            pipeline_stage := e.pipeline_stage
            rollout_count := e.rollout_count
            backprop_count := e.backprop_count
            step_count := e.step_count
            local_start_time_str := e.local_start_time_str
            optimizer_state_dict := e.optimizer_state
            model_state_dict := e.model_state
            trainer_seed := none
            worker_seeds := none
            scheduler_state := e.scheduler_state
            scheduler_steps := match e.scheduler_state with
              | some _ => e.last_scheduler_steps
              | none => none }
          (fun h => hs1 h)
          (fun h => by
            obtain ⟨s2, hs2v⟩ := Option.isSome_iff_exists.mp (hs1 h)
            rw [hs2v]
            exact hs2 h)
      refine ⟨g, hok, by rw [hts], by rw [hps], by rw [hsc], by rw [htu],
        by rw [hrc], by rw [hbc], by rw [hms], by rw [hos], ?_⟩
      intro s0 hs0
      cases hs0
  | some s0 =>
      simp only [checkpoint_save, hse]
      simp only [checkpoint_load, if_pos hfm, hnp]
      rw [if_pos trivial]
      obtain ⟨g, hok, -, -, -, -, -, -, htu, hps, hrc, hbc, hsc, hts, hms,
        hos, -⟩ :=
        load_scheduler_fields (M := M) (O := O) (S := S)
          { f with
            num_processes := e.num_processes
            model_state := e.model_state
            step_count := e.step_count
            total_steps := e.total_steps
            optimizer_state := e.optimizer_state
            backprop_count := e.backprop_count
            rollout_count := e.rollout_count
            pipeline_stage := e.pipeline_stage
            total_updates := e.total_updates
            local_start_time_str := e.local_start_time_str
            current_pipeline_stage := e.pipeline_stage
            seed := some (worker_seeds nextInt 1 e.rngState).1.headI
            rngState := (worker_seeds nextInt e.num_processes
              (seedFn (worker_seeds nextInt 1 e.rngState).1.headI)).2
            vector_tasks_seeds := some (worker_seeds nextInt e.num_processes
              (seedFn (worker_seeds nextInt 1 e.rngState).1.headI)).1 }
          { total_updates := e.total_updates
            total_steps := e.total_steps
            pipeline_stage := e.pipeline_stage
            rollout_count := e.rollout_count
            backprop_count := e.backprop_count
            step_count := e.step_count
            local_start_time_str := e.local_start_time_str
            optimizer_state_dict := e.optimizer_state
            model_state_dict := e.model_state
            trainer_seed := some (worker_seeds nextInt 1 e.rngState).1.headI
            worker_seeds := some (worker_seeds nextInt e.num_processes
              (seedFn (worker_seeds nextInt 1 e.rngState).1.headI)).1
            scheduler_state := e.scheduler_state
            scheduler_steps := match e.scheduler_state with
              | some _ => e.last_scheduler_steps
              | none => none }
          (fun h => hs1 h)
          (fun h => by
            obtain ⟨s2, hs2v⟩ := Option.isSome_iff_exists.mp (hs1 h)
            rw [hs2v]
            exact hs2 h)
      refine ⟨g, hok, by rw [hts], by rw [hps], by rw [hsc], by rw [htu],
        by rw [hrc], by rw [hbc], by rw [hms], by rw [hos], ?_⟩
      intro s1 _
      exact ⟨(worker_seeds nextInt 1 e.rngState).1.headI,
        (worker_seeds nextInt e.num_processes
          (seedFn (worker_seeds nextInt 1 e.rngState).1.headI)).1,
        rfl, rfl, rfl⟩

/-- A deterministic instantiation of the RNG model for witnesses: seeding
stores the seed, each draw returns the state and advances it by one. -/
def rngSeedFn (s : ℤ) : ℤ := s

/-- The draw function of the witness RNG model. -/
def rngNextInt (st : ℤ) : ℤ × ℤ := (st, st + 1)

/-- A concrete train-mode engine with a global seed for witnesses. -/
def c4e : Engine ℤ ℤ ℤ where
  mode := "train"
  seed := some 11
  rngState := 100
  num_processes := 2
  pipeline_stages := []
  current_pipeline_stage := 0
  experiment_name := "exp"
  local_start_time_str := "t0"
  total_updates := 1
  pipeline_stage := 2
  rollout_count := 3
  backprop_count := 4
  step_count := 5
  total_steps := 6
  model_state := 7
  optimizer_state := 8
  scheduler_state := none
  last_scheduler_steps := none
  vector_tasks_seeds := none

/-- Witness for C4: round-tripping the concrete engine `c4e` through
save/load restores its counters and states. -/
theorem C4_checkpoint_roundtrip_witness :
    ∃ g, checkpoint_load rngSeedFn rngNextInt c4e
        (checkpoint_save rngSeedFn rngNextInt c4e).ckpt = .ok g ∧
      g.total_steps = c4e.total_steps ∧ g.model_state = c4e.model_state := by
  obtain ⟨g, hok, hts, -, -, -, -, -, hms, -⟩ :=
    C4_checkpoint_roundtrip rngSeedFn rngNextInt c4e c4e rfl rfl rfl
      (fun h => h) (fun h => by cases h)
  exact ⟨g, hok, hts, hms⟩

/-- C10: whenever the engine holds a global seed, `checkpoint_save` — before
persisting — replaces `self.seed` with a freshly drawn one, re-seeds the
global RNG with it, regenerates the per-worker seed list and pushes it to the
vectorized tasks; the trainer seed recorded in the save dict and in the
checkpoint filename is this newly drawn seed. -/
theorem C10_checkpoint_save_reseeds {M O S : Type} (seedFn : ℤ → ℤ)
    (nextInt : ℤ → ℤ × ℤ) (e : Engine M O S) (s0 : ℤ)
    (hseed : e.seed = some s0) :
    (checkpoint_save seedFn nextInt e).engine.seed
      = some (worker_seeds nextInt 1 e.rngState).1.headI ∧
    (checkpoint_save seedFn nextInt e).engine.rngState
      = (worker_seeds nextInt e.num_processes
          (seedFn (worker_seeds nextInt 1 e.rngState).1.headI)).2 ∧
    (checkpoint_save seedFn nextInt e).engine.vector_tasks_seeds
      = some (worker_seeds nextInt e.num_processes
          (seedFn (worker_seeds nextInt 1 e.rngState).1.headI)).1 ∧
    (checkpoint_save seedFn nextInt e).ckpt.trainer_seed
      = (checkpoint_save seedFn nextInt e).engine.seed ∧
    (checkpoint_save seedFn nextInt e).ckpt.worker_seeds
      = (checkpoint_save seedFn nextInt e).engine.vector_tasks_seeds ∧
    (checkpoint_save seedFn nextInt e).path_seed
      = (checkpoint_save seedFn nextInt e).engine.seed := by
  simp only [checkpoint_save, hseed]
  exact ⟨trivial, trivial, trivial, trivial, trivial, trivial⟩

/-- Witness for C10 on the concrete engine `c4e` and witness RNG: the seed
after saving is the value drawn from RNG state 100, i.e. 100, not the
starting seed 11. -/
theorem C10_checkpoint_save_reseeds_witness :
    (checkpoint_save rngSeedFn rngNextInt c4e).engine.seed
        = some (worker_seeds rngNextInt 1 c4e.rngState).1.headI ∧
    (checkpoint_save rngSeedFn rngNextInt c4e).path_seed
        = (checkpoint_save rngSeedFn rngNextInt c4e).engine.seed :=
  ⟨(C10_checkpoint_save_reseeds rngSeedFn rngNextInt c4e 11 rfl).1,
    (C10_checkpoint_save_reseeds rngSeedFn rngNextInt c4e 11 rfl).2.2.2.2.2⟩

theorem run_stages_trace {M O S : Type} (steps_in_rollout : ℕ) :
    ∀ (l : List PipelineStage) (e : Engine M O S) (idx : ℕ),
      ((run_stages steps_in_rollout e l idx).2).map StageRun.stage_index
          = List.range' idx l.length ∧
      (∀ r ∈ (run_stages steps_in_rollout e l idx).2,
        r.num_rollouts ≤ r.end_rollout_count) := by
  intro l
  induction l with
  | nil =>
      intro e idx
      exact ⟨rfl, fun r hr => absurd hr (List.not_mem_nil r)⟩
  | cons stage rest ih =>
      intro e idx
      refine ⟨?_, ?_⟩
      · show ((run_stage steps_in_rollout e stage idx).2 ::
            (run_stages steps_in_rollout (run_stage steps_in_rollout e stage
              idx).1 rest (idx + 1)).2).map StageRun.stage_index = _
        rw [List.map_cons, (ih _ (idx + 1)).1]
        rfl
      · intro r hr
        rcases List.mem_cons.mp hr with hr | hr
        · subst hr
          exact le_max_right _ _
        · exact (ih _ (idx + 1)).2 r hr

theorem checkpoint_load_no_seed {M O S : Type} (seedFn : ℤ → ℤ)
    (nextInt : ℤ → ℤ × ℤ) (e : Engine M O S) (ckpt : Checkpoint M O S)
    (hm : e.mode = "train") (hts : ckpt.trainer_seed = none)
    (hsch : e.scheduler_state = none) :
    checkpoint_load seedFn nextInt e ckpt = .ok { e with
      model_state := ckpt.model_state_dict
      step_count := ckpt.step_count
      total_steps := ckpt.total_steps
      optimizer_state := ckpt.optimizer_state_dict
      backprop_count := ckpt.backprop_count
      rollout_count := ckpt.rollout_count
      pipeline_stage := ckpt.pipeline_stage
      total_updates := ckpt.total_updates
      local_start_time_str := ckpt.local_start_time_str
      current_pipeline_stage := ckpt.pipeline_stage
      seed := none } := by
  simp only [checkpoint_load, if_pos hm, hts, load_scheduler, hsch]

/-- C5: resuming `run_pipeline` from a checkpoint saved while stage `i` was
in progress restores the stage index to exactly `i` (with the persisted
rollout and step counters), so the first stage trained after resume is stage
`i`, the subsequent stages follow in order, and each stage's loop runs to its
rollout budget before the stage counter advances; in particular with stages
of budgets `[1000, 2000]`, resuming from a checkpoint at step 500 of the
first stage continues at stage index 0. -/
theorem C5_resume_mid_stage {M O S : Type} (seedFn : ℤ → ℤ)
    (nextInt : ℤ → ℤ × ℤ) (steps_in_rollout : ℕ) :
    (∀ (e : Engine M O S) (ckpt : Checkpoint M O S) (i : ℕ),
      e.mode = "train" → e.scheduler_state = none →
      ckpt.trainer_seed = none → ckpt.pipeline_stage = i →
      i < e.pipeline_stages.length →
      ∃ e1 ef trace first rest,
        checkpoint_load seedFn nextInt e ckpt = .ok e1 ∧
        e1.current_pipeline_stage = i ∧ e1.pipeline_stage = i ∧
        e1.rollout_count = ckpt.rollout_count ∧
        e1.step_count = ckpt.step_count ∧
        run_pipeline seedFn nextInt steps_in_rollout e (some ckpt)
          = .ok (ef, trace) ∧
        trace = first :: rest ∧ first.stage_index = i ∧
        first.start_rollout_count = ckpt.rollout_count ∧
        trace.map StageRun.stage_index
          = List.range' i (e.pipeline_stages.length - i) ∧
        (∀ r ∈ trace, r.num_rollouts ≤ r.end_rollout_count)) ∧
    (∀ (e : Engine M O S) (ckpt : Checkpoint M O S),
      e.mode = "train" → e.scheduler_state = none →
      ckpt.trainer_seed = none → e.pipeline_stages = [⟨1000⟩, ⟨2000⟩] →
      ckpt.pipeline_stage = 0 → ckpt.step_count = 500 →
      ∃ ef trace first rest,
        run_pipeline seedFn nextInt steps_in_rollout e (some ckpt)
          = .ok (ef, trace) ∧
        trace = first :: rest ∧ first.stage_index = 0) := by
  have main : ∀ (e : Engine M O S) (ckpt : Checkpoint M O S) (i : ℕ),
      e.mode = "train" → e.scheduler_state = none →
      ckpt.trainer_seed = none → ckpt.pipeline_stage = i →
      i < e.pipeline_stages.length →
      ∃ e1 ef trace first rest,
        checkpoint_load seedFn nextInt e ckpt = .ok e1 ∧
        e1.current_pipeline_stage = i ∧ e1.pipeline_stage = i ∧
        e1.rollout_count = ckpt.rollout_count ∧
        e1.step_count = ckpt.step_count ∧
        run_pipeline seedFn nextInt steps_in_rollout e (some ckpt)
          = .ok (ef, trace) ∧
        trace = first :: rest ∧ first.stage_index = i ∧
        first.start_rollout_count = ckpt.rollout_count ∧
        trace.map StageRun.stage_index
          = List.range' i (e.pipeline_stages.length - i) ∧
        (∀ r ∈ trace, r.num_rollouts ≤ r.end_rollout_count) := by
    intro e ckpt i hm hsch hts hstage hi
    have hload := checkpoint_load_no_seed seedFn nextInt e ckpt hm hts hsch
    rw [hstage] at hload
    set e1 : Engine M O S := { e with
      model_state := ckpt.model_state_dict
      step_count := ckpt.step_count
      total_steps := ckpt.total_steps
      optimizer_state := ckpt.optimizer_state_dict
      backprop_count := ckpt.backprop_count
      rollout_count := ckpt.rollout_count
      pipeline_stage := i
      total_updates := ckpt.total_updates
      local_start_time_str := ckpt.local_start_time_str
      current_pipeline_stage := i
      seed := none } with he1
    cases hd : e.pipeline_stages.drop i with
    | nil =>
        exfalso
        have hld := List.length_drop i e.pipeline_stages
        rw [hd] at hld
        simp only [List.length_nil] at hld
        omega
    | cons stage rest' =>
        have hlen : (stage :: rest').length = e.pipeline_stages.length - i := by
          rw [← hd, List.length_drop]
        have htr := run_stages_trace (M := M) (O := O) (S := S)
          steps_in_rollout (stage :: rest') e1 i
        refine ⟨e1,
          (run_stages steps_in_rollout e1 (stage :: rest') i).1,
          (run_stages steps_in_rollout e1 (stage :: rest') i).2,
          (run_stage steps_in_rollout e1 stage i).2,
          (run_stages steps_in_rollout (run_stage steps_in_rollout e1 stage
            i).1 rest' (i + 1)).2,
          hload, rfl, rfl, rfl, rfl, ?_, rfl, rfl, rfl, ?_, ?_⟩
        · show run_pipeline seedFn nextInt steps_in_rollout e (some ckpt) = _
          simp only [run_pipeline, hload]
          rw [show remaining_stages e1 = e.pipeline_stages.drop i from rfl, hd]
        · rw [← hlen]
          exact htr.1
        · exact htr.2
  refine ⟨main, ?_⟩
  intro e ckpt hm hsch hts hstages hstage hsteps
  obtain ⟨e1, ef, trace, first, rest, -, -, -, -, -, hrun, htrace, hfirst, -⟩ :=
    main e ckpt 0 hm hsch hts hstage (by rw [hstages]; decide)
  exact ⟨ef, trace, first, rest, hrun, htrace, hfirst⟩

/-- A concrete two-stage train-mode engine for the C5 witness. -/
def c5e : Engine ℤ ℤ ℤ := { c4e with
  seed := none
  pipeline_stages := [⟨1000⟩, ⟨2000⟩]
  current_pipeline_stage := 0 }

/-- A concrete checkpoint taken at step 500 of the first stage. -/
def c5ckpt : Checkpoint ℤ ℤ ℤ where
  total_updates := 0
  total_steps := 0
  pipeline_stage := 0
  rollout_count := 2
  backprop_count := 0
  step_count := 500
  local_start_time_str := "t0"
  optimizer_state_dict := 8
  model_state_dict := 7
  trainer_seed := none
  worker_seeds := none
  scheduler_state := none
  scheduler_steps := none

/-- Witness for C5: resuming the concrete two-stage pipeline from the step-500
checkpoint trains stage index 0 first. -/
theorem C5_resume_mid_stage_witness :
    ∃ ef trace first rest,
      run_pipeline rngSeedFn rngNextInt 10 c5e (some c5ckpt)
        = .ok (ef, trace) ∧
      trace = first :: rest ∧ first.stage_index = 0 :=
  (C5_resume_mid_stage rngSeedFn rngNextInt 10).2 c5e c5ckpt rfl rfl rfl rfl
    rfl rfl

/-! ## recurrent_generator: shard boundaries (storage_device.py:262-365) -/

/-- `np.round`: round half to even, as applied to the `linspace` cut points in
`recurrent_generator` (storage_device.py:274-276). -/
def roundHalfEven (q : ℚ) : ℤ :=
  if q - Int.floor q < 1 / 2 then Int.floor q
  else if 1 / 2 < q - Int.floor q then Int.floor q + 1
  else if 2 ∣ Int.floor q then Int.floor q else Int.floor q + 1

theorem roundHalfEven_intCast (n : ℤ) : roundHalfEven (n : ℚ) = n := by
  rw [roundHalfEven, Int.floor_intCast]
  rw [if_pos (by norm_num)]

theorem sub_half_le_roundHalfEven (q : ℚ) :
    q - 1 / 2 ≤ (roundHalfEven q : ℚ) := by
  have hf1 : ((Int.floor q : ℤ) : ℚ) ≤ q := Int.floor_le q
  have hf2 : q < ((Int.floor q : ℤ) : ℚ) + 1 := Int.lt_floor_add_one q
  rw [roundHalfEven]
  split_ifs with h1 h2 h3 <;> push_cast <;> linarith

theorem roundHalfEven_le_add_half (q : ℚ) :
    (roundHalfEven q : ℚ) ≤ q + 1 / 2 := by
  have hf1 : ((Int.floor q : ℤ) : ℚ) ≤ q := Int.floor_le q
  have hf2 : q < ((Int.floor q : ℤ) : ℚ) + 1 := Int.lt_floor_add_one q
  rw [roundHalfEven]
  split_ifs with h1 h2 h3 <;> push_cast <;> linarith

/-- Cut point `k` of `recurrent_generator`'s process-axis partition
(storage_device.py:274-276):
`np.round(np.linspace(0, num_processes, num_mini_batch + 1, endpoint=True))`
at index `k`, i.e. the half-even rounding of
`k * num_processes / num_mini_batch`. -/
def cutInd (num_processes num_mini_batch k : ℕ) : ℤ :=
  roundHalfEven ((k * num_processes : ℚ) / num_mini_batch)

/-- The shuffled `pairs = list(zip(inds[:-1], inds[1:]))` of
`recurrent_generator` (storage_device.py:277), before `random.shuffle`. -/
def shardPairs (num_processes num_mini_batch : ℕ) : List (ℤ × ℤ) :=
  (List.range num_mini_batch).map
    (fun k => (cutInd num_processes num_mini_batch k,
      cutInd num_processes num_mini_batch (k + 1)))

theorem cutInd_zero (N m : ℕ) : cutInd N m 0 = 0 := by
  have h : ((0 : ℕ) * N : ℚ) / m = ((0 : ℤ) : ℚ) := by norm_num
  rw [cutInd, h, roundHalfEven_intCast]

theorem cutInd_last (N m : ℕ) (hm : m ≠ 0) : cutInd N m m = (N : ℤ) := by
  have hmq : (m : ℚ) ≠ 0 := Nat.cast_ne_zero.mpr hm
  have h : ((m : ℕ) * N : ℚ) / m = ((N : ℤ) : ℚ) := by
    push_cast
    field_simp
  rw [cutInd, h, roundHalfEven_intCast]

theorem cutInd_succ_le (N m k : ℕ) (hm : 0 < m) (hmN : m ≤ N) :
    cutInd N m k ≤ cutInd N m (k + 1) := by
  have hmq : (0 : ℚ) < m := by positivity
  have h1 : (cutInd N m k : ℚ) ≤ (k * N : ℚ) / m + 1 / 2 :=
    roundHalfEven_le_add_half _
  have h2 : (((k + 1 : ℕ) : ℚ) * N) / m - 1 / 2 ≤ (cutInd N m (k + 1) : ℚ) :=
    sub_half_le_roundHalfEven _
  have hdiff : (((k + 1 : ℕ) : ℚ) * N) / m - (k * N : ℚ) / m = N / m := by
    push_cast
    field_simp
    ring
  have hge : (1 : ℚ) ≤ (N : ℚ) / m := by
    rw [le_div_iff hmq, one_mul]
    exact_mod_cast hmN
  have : (cutInd N m k : ℚ) ≤ (cutInd N m (k + 1) : ℚ) := by linarith
  exact_mod_cast this

theorem cutInd_mono (N m : ℕ) (hm : 0 < m) (hmN : m ≤ N) :
    ∀ j k : ℕ, j ≤ k → cutInd N m j ≤ cutInd N m k := by
  intro j k hjk
  induction hjk with
  | refl => exact le_refl _
  | step h ih => exact le_trans ih (cutInd_succ_le N m _ hm hmN)

/-- Any index strictly below cut point `k` lies in one of the first `k`
shards. -/
theorem cutInd_cover (N m : ℕ) (j : ℤ) (h0 : 0 ≤ j) :
    ∀ k, j < cutInd N m k →
      ∃ i, i < k ∧ cutInd N m i ≤ j ∧ j < cutInd N m (i + 1) := by
  intro k
  induction k with
  | zero =>
      intro h
      rw [cutInd_zero] at h
      omega
  | succ k ih =>
      intro h
      by_cases hk : cutInd N m k ≤ j
      · exact ⟨k, by omega, hk, h⟩
      · obtain ⟨i, hi, hle, hlt⟩ := ih (by omega)
        exact ⟨i, by omega, hle, hlt⟩

/-- The shard intervals are pairwise disjoint. -/
theorem cutInd_disjoint (N m : ℕ) (hm : 0 < m) (hmN : m ≤ N)
    (k1 k2 : ℕ) (j : ℤ)
    (h1 : cutInd N m k1 ≤ j) (h2 : j < cutInd N m (k1 + 1))
    (h3 : cutInd N m k2 ≤ j) (h4 : j < cutInd N m (k2 + 1)) : k1 = k2 := by
  by_contra hne
  rcases Nat.lt_or_ge k1 k2 with h | h
  · have := cutInd_mono N m hm hmN (k1 + 1) k2 (by omega)
    omega
  · have := cutInd_mono N m hm hmN (k2 + 1) k1 (by omega)
    omega

/-- `RolloutStorage._flatten_helper` (storage_device.py:391-403):
`tensor.view(t * n, ...)` of a contiguous `[t, n, ...]` stack is the
row-major reindexing `flat[i] = tensor[i / n][i % n]`. -/
def flatten_helper {γ : Type} (t n : ℕ) (tensor : ℕ → ℕ → γ) : ℕ → γ :=
  fun i => tensor (i / n) (i % n)

/-- The flattened `[T * n, ...]` tensor of one shard `(a, b)`: per-process
columns `f[:, a + i]` for `0 ≤ i < b - a` are stacked along dim 1 into
`[T, n, ...]` (storage_device.py:293-327) and flattened by `_flatten_helper`
(storage_device.py:334-352). -/
def shardFlat {γ : Type} (T : ℕ) (a b : ℤ) (f : ℕ → ℕ → γ) : ℕ → γ :=
  flatten_helper T (b - a).toNat (fun t i => f t (a.toNat + i))

/-- Lookup in a nested observation dict. -/
def findEntry {β : Type} (k : String) : ObsEntries β → Option (NestedObs β)
  | .nil => none
  | .cons k' v rest => if k' = k then some v else findEntry k rest

/-- `d[k] = v` on a Python dict: overwrite in place, or append a new key. -/
def setTop {β : Type} (k : String) (v : NestedObs β) :
    ObsEntries β → ObsEntries β
  | .nil => .cons k v .nil
  | .cons k' v' rest =>
      if k' = k then .cons k' v rest else .cons k' v' (setTop k v rest)

/-- The path walk of `unflatten_spaces` (storage_device.py:380-384):
`cur_dict = result; for part in full_path[:-1]: cur_dict = cur_dict[part];
cur_dict[full_path[-1]] = value`, where `result` is a recursive defaultdict —
a missing intermediate key creates a fresh nested dict appended in insertion
order.  Stepping into a tensor (Python would raise a `TypeError` when
subscripting it) is modelled as `none`; recorded paths are never empty
(`path + [sensor]`). -/
def setPath {β : Type} (es : ObsEntries β) :
    List String → β → Option (ObsEntries β)
  | [], _ => none
  | [last], v => some (setTop last (.tensor v) es)
  | part :: next :: rest, v =>
      match findEntry part es with
      | some (.dict sub) =>
          match setPath sub (next :: rest) v with
          | some sub' => some (setTop part (.dict sub') es)
          | none => none
      | some (.tensor _) => none
      | none =>
          match setPath .nil (next :: rest) v with
          | some sub' => some (setTop part (.dict sub') es)
          | none => none

/-- Iteration of `unflatten_spaces` (storage_device.py:376-384) over the
flattened observation dict in insertion order: a name with a recorded path is
written at that nested path, any other name is set top-level. -/
def unflatten_go {β : Type} (flattened_spaces : List (String × List String)) :
    List (String × β) → ObsEntries β → Option (ObsEntries β)
  | [], acc => some acc
  | (name, v) :: rest, acc =>
      match alistFind name flattened_spaces with
      | none =>
          unflatten_go flattened_spaces rest (setTop name (.tensor v) acc)
      | some full_path =>
          match setPath acc full_path v with
          | some acc' => unflatten_go flattened_spaces rest acc'
          | none => none

/-- `RolloutStorage.unflatten_spaces` (storage_device.py:367-385). -/
def unflatten_spaces {β : Type}
    (flattened_spaces : List (String × List String))
    (observations : List (String × β)) : Option (ObsEntries β) :=
  unflatten_go flattened_spaces observations .nil

/-- Read the value of a nested observation dict at a (nonempty) path. -/
def getPath {β : Type} (es : ObsEntries β) :
    List String → Option (NestedObs β)
  | [] => none
  | [last] => findEntry last es
  | part :: next :: rest =>
      match findEntry part es with
      | some (.dict sub) => getPath sub (next :: rest)
      | _ => none

/-- The nested path at which `unflatten_spaces` places a flattened name: the
recorded `flattened_spaces` path if one exists, else top-level. -/
def effPath (flattened_spaces : List (String × List String))
    (name : String) : List String :=
  match alistFind name flattened_spaces with
  | some p => p
  | none => [name]

/-- One mini-batch yielded by `recurrent_generator`
(storage_device.py:354-365).  Flattened tensors are flat-index functions;
hidden states keep their `[layers, n, ...]` shape (indexed by layer and
in-shard process); the nested observation dict is rebuilt by
`unflatten_spaces` (`none` being the unreachable Python `TypeError` of the
path walk).  The `norm_adv_targ` entry — the same flattening applied to
`(advantages - mean) / (std + 1e-5)`, whose mean/std are floating-point
reductions — is not modelled. -/
structure Batch (γ : Type) where
  observations : Option (ObsEntries (ℕ → γ))
  recurrent_hidden_states : ℕ → ℕ → γ
  actions : ℕ → γ
  prev_actions : ℕ → γ
  values : ℕ → γ
  returns : ℕ → γ
  masks : ℕ → γ
  old_action_log_probs : ℕ → γ
  adv_targ : ℕ → γ

/-- The batch yielded for one shard `(a, b)` by `recurrent_generator`
(storage_device.py:280-365): columns `a ≤ ind < b` of each time-sliced tensor
are stacked into `[T, n, ...]` and flattened row-major; hidden states take
`[0, :, ind]`; observations are renested from the recorded flattened keys.
The `[:-1]` time slices touch no index below `T`. -/
def shardBatch {γ : Type} (T : ℕ)
    (observations : List (String × (ℕ → ℕ → γ)))
    (flattened_spaces : List (String × List String))
    (recurrent_hidden_states : ℕ → ℕ → ℕ → γ)
    (actions prev_actions value_preds returns masks action_log_probs
      advantages : ℕ → ℕ → γ) (a b : ℤ) : Batch γ where
  observations := unflatten_spaces flattened_spaces
    (observations.map (fun kv => (kv.1, shardFlat T a b kv.2)))
  recurrent_hidden_states := fun l i =>
    recurrent_hidden_states 0 l (a.toNat + i)
  actions := shardFlat T a b actions
  prev_actions := shardFlat T a b prev_actions
  values := shardFlat T a b value_preds
  returns := shardFlat T a b returns
  masks := shardFlat T a b masks
  old_action_log_probs := shardFlat T a b action_log_probs
  adv_targ := shardFlat T a b advantages

/-- `RolloutStorage.recurrent_generator(advantages, num_mini_batch, device)`
(storage_device.py:262-365), with `self`'s tensors passed explicitly
(functions of (time, process); hidden states of (time, layer, process)) and
the shuffled shard list a parameter (`random.shuffle` permutes
`shardPairs num_processes num_mini_batch`): one `Batch` is yielded per
shuffled `(start_ind, end_ind)` pair. -/
def recurrent_generator {γ : Type} (T : ℕ)
    (observations : List (String × (ℕ → ℕ → γ)))
    (flattened_spaces : List (String × List String))
    (recurrent_hidden_states : ℕ → ℕ → ℕ → γ)
    (actions prev_actions value_preds returns masks action_log_probs
      advantages : ℕ → ℕ → γ)
    (shuffled_pairs : List (ℤ × ℤ)) : List (Batch γ) :=
  shuffled_pairs.map (fun p => shardBatch T observations flattened_spaces
    recurrent_hidden_states actions prev_actions value_preds returns masks
    action_log_probs advantages p.1 p.2)

theorem flatten_helper_at {γ : Type} (T n : ℕ) (f : ℕ → ℕ → γ) (t p : ℕ)
    (hp : p < n) : flatten_helper T n f (t * n + p) = f t p := by
  have hn : 0 < n := by omega
  unfold flatten_helper
  have h1 : (t * n + p) / n = t := by
    rw [Nat.mul_comm, Nat.mul_add_div hn, Nat.div_eq_of_lt hp, Nat.add_zero]
  have h2 : (t * n + p) % n = p := by
    rw [Nat.mul_comm, Nat.mul_add_mod, Nat.mod_eq_of_lt hp]
  rw [h1, h2]

theorem shardFlat_at {γ : Type} (T : ℕ) (a b : ℤ) (f : ℕ → ℕ → γ) (t p : ℕ)
    (hp : p < (b - a).toNat) :
    shardFlat T a b f (t * (b - a).toNat + p) = f t (a.toNat + p) :=
  flatten_helper_at T _ _ t p hp

/-- Structural induction for `ObsEntries` with a single motive (the
auto-generated mutual recursor has two). -/
theorem obsEntriesInd {β : Type} {motive : ObsEntries β → Prop}
    (hnil : motive .nil)
    (hcons : ∀ (k : String) (v : NestedObs β) (rest : ObsEntries β),
      motive rest → motive (.cons k v rest)) :
    ∀ es : ObsEntries β, motive es
  | .nil => hnil
  | .cons k v rest => hcons k v rest (obsEntriesInd hnil hcons rest)

theorem findEntry_setTop_same {β : Type} (k : String) (v : NestedObs β) :
    ∀ es : ObsEntries β, findEntry k (setTop k v es) = some v := by
  intro es
  induction es using obsEntriesInd with
  | hnil => simp [setTop, findEntry]
  | hcons k' v' rest ih =>
      by_cases h : k' = k
      · subst h
        simp [setTop, findEntry]
      · simp only [setTop, if_neg h, findEntry]
        exact ih

theorem findEntry_setTop_other {β : Type} (k k' : String) (hne : k' ≠ k)
    (v : NestedObs β) :
    ∀ es : ObsEntries β, findEntry k' (setTop k v es) = findEntry k' es := by
  intro es
  induction es using obsEntriesInd with
  | hnil =>
      simp only [setTop, findEntry]
      rw [if_neg (fun h => hne h.symm)]
  | hcons k'' v'' rest ih =>
      by_cases h : k'' = k
      · subst h
        simp only [setTop, if_pos rfl, findEntry]
        rw [if_neg (fun hh => hne hh.symm), if_neg (fun hh => hne hh.symm)]
      · simp only [setTop, if_neg h, findEntry]
        by_cases h2 : k'' = k'
        · rw [if_pos h2, if_pos h2]
        · rw [if_neg h2, if_neg h2]
          exact ih

theorem getPath_nil {β : Type} : ∀ p : List String,
    getPath (.nil : ObsEntries β) p = none := by
  intro p
  cases p with
  | nil => rfl
  | cons a t =>
      cases t with
      | nil => rfl
      | cons b r => rfl

/-- After a successful `setPath`, reading back the same path yields the
inserted tensor. -/
theorem setPath_get_self {β : Type} :
    ∀ (p : List String) (es es' : ObsEntries β) (v : β),
      setPath es p v = some es' → getPath es' p = some (.tensor v) := by
  intro p
  induction p with
  | nil =>
      intro es es' v h
      cases h
  | cons part ptail ih =>
      intro es es' v h
      cases ptail with
      | nil =>
          simp only [setPath] at h
          injection h with h
          subst h
          simp only [getPath]
          exact findEntry_setTop_same part (.tensor v) es
      | cons next rest =>
          simp only [setPath] at h
          cases hf : findEntry part es with
          | none =>
              simp only [hf] at h
              cases hs : setPath (.nil : ObsEntries β) (next :: rest) v with
              | none => simp only [hs] at h; cases h
              | some sub' =>
                  simp only [hs] at h
                  injection h with h
                  subst h
                  simp only [getPath, findEntry_setTop_same]
                  exact ih _ _ v hs
          | some nv =>
              cases nv with
              | tensor w => simp only [hf] at h; cases h
              | dict sub =>
                  simp only [hf] at h
                  cases hs : setPath sub (next :: rest) v with
                  | none => simp only [hs] at h; cases h
                  | some sub' =>
                      simp only [hs] at h
                      injection h with h
                      subst h
                      simp only [getPath, findEntry_setTop_same]
                      exact ih _ _ v hs

/-- A successful `setPath` leaves every path that is prefix-unrelated to the
inserted one unchanged. -/
theorem setPath_get_other {β : Type} :
    ∀ (p : List String) (es es' : ObsEntries β) (v : β),
      setPath es p v = some es' → ∀ q : List String,
        ¬ p.IsPrefix q → ¬ q.IsPrefix p → getPath es' q = getPath es q := by
  intro p
  induction p with
  | nil =>
      intro es es' v h
      cases h
  | cons part ptail ih =>
      intro es es' v h q hpq hqp
      cases q with
      | nil => exact absurd List.nil_prefix hqp
      | cons qh qtail =>
          by_cases hk : qh = part
          · subst hk
            have hpq' : ¬ ptail.IsPrefix qtail := fun hh =>
              hpq (List.cons_prefix_cons.mpr ⟨rfl, hh⟩)
            have hqp' : ¬ qtail.IsPrefix ptail := fun hh =>
              hqp (List.cons_prefix_cons.mpr ⟨rfl, hh⟩)
            cases ptail with
            | nil => exact absurd List.nil_prefix hpq'
            | cons pn prest =>
                simp only [setPath] at h
                cases qtail with
                | nil => exact absurd List.nil_prefix hqp'
                | cons qn qrest =>
                    cases hf : findEntry qh es with
                    | none =>
                        simp only [hf] at h
                        cases hs : setPath (.nil : ObsEntries β) (pn :: prest)
                            v with
                        | none => simp only [hs] at h; cases h
                        | some sub' =>
                            simp only [hs] at h
                            injection h with h
                            subst h
                            simp only [getPath, findEntry_setTop_same, hf]
                            rw [ih _ _ v hs (qn :: qrest) hpq' hqp']
                            exact getPath_nil _
                    | some nv =>
                        cases nv with
                        | tensor w => simp only [hf] at h; cases h
                        | dict sub =>
                            simp only [hf] at h
                            cases hs : setPath sub (pn :: prest) v with
                            | none => simp only [hs] at h; cases h
                            | some sub' =>
                                simp only [hs] at h
                                injection h with h
                                subst h
                                simp only [getPath, findEntry_setTop_same, hf]
                                exact ih _ _ v hs (qn :: qrest) hpq' hqp'
          · have key : ∀ X : NestedObs β,
                getPath (setTop part X es) (qh :: qtail)
                  = getPath es (qh :: qtail) := by
              intro X
              cases qtail with
              | nil =>
                  simp only [getPath]
                  exact findEntry_setTop_other part qh hk X es
              | cons qn qrest =>
                  simp only [getPath]
                  rw [findEntry_setTop_other part qh hk X es]
            cases ptail with
            | nil =>
                simp only [setPath] at h
                injection h with h
                subst h
                exact key _
            | cons pn prest =>
                simp only [setPath] at h
                cases hf : findEntry part es with
                | none =>
                    simp only [hf] at h
                    cases hs : setPath (.nil : ObsEntries β) (pn :: prest)
                        v with
                    | none => simp only [hs] at h; cases h
                    | some sub' =>
                        simp only [hs] at h
                        injection h with h
                        subst h
                        exact key _
                | some nv =>
                    cases nv with
                    | tensor w => simp only [hf] at h; cases h
                    | dict sub =>
                        simp only [hf] at h
                        cases hs : setPath sub (pn :: prest) v with
                        | none => simp only [hs] at h; cases h
                        | some sub' =>
                            simp only [hs] at h
                            injection h with h
                            subst h
                            exact key _

/-- After `setPath`, every nonempty proper prefix of the inserted path holds
a nested dict. -/
theorem setPath_get_proper_prefix {β : Type} :
    ∀ (p : List String) (es es' : ObsEntries β) (v : β),
      setPath es p v = some es' → ∀ q, q ≠ [] → q.IsPrefix p → q ≠ p →
        ∃ sub, getPath es' q = some (.dict sub) := by
  intro p
  induction p with
  | nil =>
      intro es es' v h
      cases h
  | cons part ptail ih =>
      intro es es' v h q hq0 hpre hne
      obtain ⟨qh, qtail, rfl⟩ : ∃ qh qtail, q = qh :: qtail := by
        cases q with
        | nil => exact absurd rfl hq0
        | cons a b => exact ⟨a, b, rfl⟩
      obtain ⟨hqh, htail⟩ := List.cons_prefix_cons.mp hpre
      subst hqh
      cases ptail with
      | nil =>
          have : qtail = [] := List.prefix_nil.mp htail
          subst this
          exact absurd rfl hne
      | cons pn prest =>
          simp only [setPath] at h
          cases hf : findEntry qh es with
          | none =>
              simp only [hf] at h
              cases hs : setPath (.nil : ObsEntries β) (pn :: prest) v with
              | none => simp only [hs] at h; cases h
              | some sub' =>
                  simp only [hs] at h
                  injection h with h
                  subst h
                  cases qtail with
                  | nil =>
                      refine ⟨sub', ?_⟩
                      simp only [getPath]
                      exact findEntry_setTop_same qh _ es
                  | cons qn qrest =>
                      have hne' : qn :: qrest ≠ pn :: prest := fun hh =>
                        hne (by rw [hh])
                      obtain ⟨sub2, hsub2⟩ := ih _ _ v hs (qn :: qrest)
                        (by simp) htail hne'
                      refine ⟨sub2, ?_⟩
                      simp only [getPath, findEntry_setTop_same]
                      exact hsub2
          | some nv =>
              cases nv with
              | tensor w => simp only [hf] at h; cases h
              | dict sub =>
                  simp only [hf] at h
                  cases hs : setPath sub (pn :: prest) v with
                  | none => simp only [hs] at h; cases h
                  | some sub' =>
                      simp only [hs] at h
                      injection h with h
                      subst h
                      cases qtail with
                      | nil =>
                          refine ⟨sub', ?_⟩
                          simp only [getPath]
                          exact findEntry_setTop_same qh _ es
                      | cons qn qrest =>
                          have hne' : qn :: qrest ≠ pn :: prest := fun hh =>
                            hne (by rw [hh])
                          obtain ⟨sub2, hsub2⟩ := ih _ _ v hs (qn :: qrest)
                            (by simp) htail hne'
                          refine ⟨sub2, ?_⟩
                          simp only [getPath, findEntry_setTop_same]
                          exact hsub2

/-- After `setPath`, every proper extension of the inserted path reads
`none` (the walk hits the inserted tensor). -/
theorem setPath_get_extension {β : Type} :
    ∀ (p : List String) (es es' : ObsEntries β) (v : β),
      setPath es p v = some es' → ∀ q, p.IsPrefix q → q ≠ p →
        getPath es' q = none := by
  intro p
  induction p with
  | nil =>
      intro es es' v h
      cases h
  | cons part ptail ih =>
      intro es es' v h q hpre hne
      obtain ⟨t, rfl⟩ := hpre
      cases ptail with
      | nil =>
          simp only [setPath] at h
          injection h with h
          subst h
          cases t with
          | nil => exact absurd rfl hne
          | cons th tt =>
              show getPath _ (part :: th :: tt) = none
              simp only [getPath, findEntry_setTop_same]
      | cons pn prest =>
          have hne' : (pn :: prest) ++ t ≠ pn :: prest := by
            intro hh
            apply hne
            rw [List.cons_append, hh]
          have hpre' : (pn :: prest).IsPrefix ((pn :: prest) ++ t) :=
            List.prefix_append _ t
          simp only [setPath] at h
          cases hf : findEntry part es with
          | none =>
              simp only [hf] at h
              cases hs : setPath (.nil : ObsEntries β) (pn :: prest) v with
              | none => simp only [hs] at h; cases h
              | some sub' =>
                  simp only [hs] at h
                  injection h with h
                  subst h
                  show getPath (setTop part (.dict sub') es)
                    (part :: pn :: (prest ++ t)) = none
                  simp only [getPath, findEntry_setTop_same]
                  exact ih _ _ v hs ((pn :: prest) ++ t) hpre' hne'
          | some nv =>
              cases nv with
              | tensor w => simp only [hf] at h; cases h
              | dict sub =>
                  simp only [hf] at h
                  cases hs : setPath sub (pn :: prest) v with
                  | none => simp only [hs] at h; cases h
                  | some sub' =>
                      simp only [hs] at h
                      injection h with h
                      subst h
                      show getPath (setTop part (.dict sub') es)
                        (part :: pn :: (prest ++ t)) = none
                      simp only [getPath, findEntry_setTop_same]
                      exact ih _ _ v hs ((pn :: prest) ++ t) hpre' hne'

/-- Tensor leaves after a `setPath` sit either at the inserted path or where
they already were. -/
theorem setPath_tensor_positions {β : Type} (p : List String)
    (es es' : ObsEntries β) (v w : β) (q : List String)
    (hset : setPath es p v = some es')
    (hget : getPath es' q = some (.tensor w)) :
    q = p ∨ getPath es q = some (.tensor w) := by
  by_cases hqp : q = p
  · exact Or.inl hqp
  · by_cases h1 : q.IsPrefix p
    · exfalso
      cases q with
      | nil =>
          have hnone : getPath es' ([] : List String) = none := rfl
          rw [hnone] at hget
          cases hget
      | cons a b =>
          obtain ⟨sub, hsub⟩ := setPath_get_proper_prefix p es es' v hset
            (a :: b) (by simp) h1 hqp
          rw [hsub] at hget
          injection hget with hget
          cases hget
    · by_cases h2 : p.IsPrefix q
      · exfalso
        rw [setPath_get_extension p es es' v hset q h2 hqp] at hget
        cases hget
      · exact Or.inr (by rw [← setPath_get_other p es es' v hset q h2 h1]; exact hget)

/-- `setPath` succeeds whenever the path is nonempty and no tensor sits at a
nonempty proper prefix of it. -/
theorem setPath_isSome {β : Type} :
    ∀ (p : List String) (es : ObsEntries β) (v : β), p ≠ [] →
      (∀ q w, q ≠ [] → q.IsPrefix p → q ≠ p →
        ¬ getPath es q = some (.tensor w)) →
      ∃ es', setPath es p v = some es' := by
  intro p
  induction p with
  | nil =>
      intro es v h0 _
      exact absurd rfl h0
  | cons part ptail ih =>
      intro es v _ hobs
      cases ptail with
      | nil => exact ⟨setTop part (.tensor v) es, rfl⟩
      | cons pn prest =>
          cases hf : findEntry part es with
          | none =>
              obtain ⟨sub', hs⟩ := ih .nil v (by simp)
                (fun q w _ _ _ => by
                  rw [getPath_nil]
                  exact fun hh => Option.noConfusion hh)
              exact ⟨setTop part (.dict sub') es, by simp only [setPath, hf, hs]⟩
          | some nv =>
              cases nv with
              | tensor w =>
                  exfalso
                  refine hobs [part] w (by simp)
                    (List.cons_prefix_cons.mpr ⟨rfl, List.nil_prefix⟩)
                    (by simp) ?_
                  show findEntry part es = some (.tensor w)
                  exact hf
              | dict sub =>
                  have hcond : ∀ q w, q ≠ [] → q.IsPrefix (pn :: prest) →
                      q ≠ pn :: prest →
                      ¬ getPath sub q = some (.tensor w) := by
                    intro q w hq0 hqp hqne hh
                    obtain ⟨qh, qtail, rfl⟩ : ∃ qh qtail, q = qh :: qtail := by
                      cases q with
                      | nil => exact absurd rfl hq0
                      | cons a b => exact ⟨a, b, rfl⟩
                    refine hobs (part :: qh :: qtail) w (by simp)
                      (List.cons_prefix_cons.mpr ⟨rfl, hqp⟩) ?_ ?_
                    · intro hhh
                      injection hhh with h1 h2
                      exact hqne h2
                    · show getPath es (part :: qh :: qtail) = some (.tensor w)
                      simp only [getPath, hf]
                      exact hh
                  obtain ⟨sub', hs⟩ := ih sub v (by simp) hcond
                  exact ⟨setTop part (.dict sub') es, by
                    simp only [setPath, hf, hs]⟩

/-- Correctness of the `unflatten_spaces` fold: if the accumulator's tensor
leaves all sit at already-placed paths and all involved paths are nonempty
and pairwise prefix-unrelated, the fold succeeds, places every entry's tensor
at its `effPath`, and leaves prefix-unrelated paths unchanged. -/
theorem unflatten_go_correct {β : Type}
    (fs : List (String × List String)) :
    ∀ (obs : List (String × β)) (acc : ObsEntries β)
      (done : List (List String)),
      (∀ q w, getPath acc q = some (.tensor w) → q ∈ done) →
      (∀ kv : String × β, kv ∈ obs → effPath fs kv.1 ≠ []) →
      (∀ p0, p0 ∈ done → ∀ kv : String × β, kv ∈ obs →
        ¬ p0.IsPrefix (effPath fs kv.1) ∧
        ¬ (effPath fs kv.1).IsPrefix p0) →
      List.Pairwise (fun kv1 kv2 : String × β =>
        ¬ (effPath fs kv1.1).IsPrefix (effPath fs kv2.1) ∧
        ¬ (effPath fs kv2.1).IsPrefix (effPath fs kv1.1)) obs →
      ∃ es', unflatten_go fs obs acc = some es' ∧
        (∀ kv : String × β, kv ∈ obs →
          getPath es' (effPath fs kv.1) = some (.tensor kv.2)) ∧
        (∀ q, (∀ kv : String × β, kv ∈ obs →
            ¬ (effPath fs kv.1).IsPrefix q ∧
            ¬ q.IsPrefix (effPath fs kv.1)) →
          getPath es' q = getPath acc q) := by
  intro obs
  induction obs with
  | nil =>
      intro acc done hinv hne hdone hpw
      exact ⟨acc, rfl, fun kv hkv => absurd hkv (List.not_mem_nil kv),
        fun q _ => rfl⟩
  | cons head rest ih =>
      intro acc done hinv hne hdone hpw
      obtain ⟨name, v⟩ := head
      have hp0 : effPath fs name ≠ [] :=
        hne (name, v) (List.mem_cons_self _ _)
      have hstep : ∃ acc', setPath acc (effPath fs name) v = some acc' := by
        apply setPath_isSome _ acc v hp0
        intro q w hq0 hqp hqne hh
        exact (hdone q (hinv q w hh) (name, v) (List.mem_cons_self _ _)).1 hqp
      obtain ⟨acc', hacc'⟩ := hstep
      have hinv' : ∀ q w, getPath acc' q = some (.tensor w) →
          q ∈ effPath fs name :: done := by
        intro q w hh
        rcases setPath_tensor_positions _ acc acc' v w q hacc' hh with h | h
        · rw [h]
          exact List.mem_cons_self _ _
        · exact List.mem_cons_of_mem _ (hinv q w h)
      have hdone' : ∀ p0, p0 ∈ effPath fs name :: done →
          ∀ kv : String × β, kv ∈ rest →
          ¬ p0.IsPrefix (effPath fs kv.1) ∧
          ¬ (effPath fs kv.1).IsPrefix p0 := by
        intro p0 hp0mem kv hkv
        rcases List.mem_cons.mp hp0mem with h | h
        · subst h
          exact (List.pairwise_cons.mp hpw).1 kv hkv
        · exact hdone p0 h kv (List.mem_cons_of_mem _ hkv)
      have hne' : ∀ kv : String × β, kv ∈ rest → effPath fs kv.1 ≠ [] :=
        fun kv hkv => hne kv (List.mem_cons_of_mem _ hkv)
      obtain ⟨es', hgo, hplace, hframe⟩ := ih acc' (effPath fs name :: done)
        hinv' hne' hdone' (List.pairwise_cons.mp hpw).2
      have hgo_step : unflatten_go fs ((name, v) :: rest) acc
          = unflatten_go fs rest acc' := by
        cases hfind : alistFind name fs with
        | none =>
            have hacc2 : acc' = setTop name (.tensor v) acc := by
              have heq : setPath acc [name] v
                  = some (setTop name (.tensor v) acc) := rfl
              rw [show effPath fs name = [name] from by
                simp [effPath, hfind]] at hacc'
              rw [heq] at hacc'
              injection hacc' with h
              exact h.symm
            simp only [unflatten_go, hfind]
            rw [hacc2]
        | some full_path =>
            rw [show effPath fs name = full_path from by
              simp [effPath, hfind]] at hacc'
            simp only [unflatten_go, hfind, hacc']
      refine ⟨es', by rw [hgo_step]; exact hgo, ?_, ?_⟩
      · intro kv hkv
        rcases List.mem_cons.mp hkv with h | h
        · subst h
          rw [hframe (effPath fs name) ?_]
          · exact setPath_get_self _ acc acc' v hacc'
          · intro kv2 hkv2
            have h2 := (List.pairwise_cons.mp hpw).1 kv2 hkv2
            exact ⟨h2.2, h2.1⟩
        · exact hplace kv h
      · intro q hq
        have hqname := hq (name, v) (List.mem_cons_self _ _)
        rw [hframe q (fun kv hkv => hq kv (List.mem_cons_of_mem _ hkv))]
        exact setPath_get_other _ acc acc' v hacc' q hqname.1 hqname.2

/-- `unflatten_spaces` rebuilds the nested dict: under nonempty, pairwise
prefix-unrelated effective paths, it succeeds and places each flattened
tensor at its recorded nested path (top-level for unrecorded names). -/
theorem unflatten_spaces_correct {β : Type}
    (fs : List (String × List String)) (obs : List (String × β))
    (hne : ∀ kv : String × β, kv ∈ obs → effPath fs kv.1 ≠ [])
    (hpw : List.Pairwise (fun kv1 kv2 : String × β =>
      ¬ (effPath fs kv1.1).IsPrefix (effPath fs kv2.1) ∧
      ¬ (effPath fs kv2.1).IsPrefix (effPath fs kv1.1)) obs) :
    ∃ es', unflatten_spaces fs obs = some es' ∧
      ∀ kv : String × β, kv ∈ obs →
        getPath es' (effPath fs kv.1) = some (.tensor kv.2) := by
  obtain ⟨es', hgo, hplace, -⟩ := unflatten_go_correct fs obs .nil []
    (fun q w hh => by rw [getPath_nil] at hh; cases hh)
    hne (fun p0 hp0 => absurd hp0 (List.not_mem_nil p0)) hpw
  exact ⟨es', hgo, hplace⟩

/-- C2: for `1 ≤ num_mini_batch ≤ N` and any shuffle of the shard pairs,
`recurrent_generator` yields exactly `num_mini_batch` batches, one per
shuffled pair; the shard intervals `[cutInd k, cutInd (k+1))`, obtained by
half-even rounding of `num_mini_batch + 1` evenly spaced cut points over
`[0, N]`, are pairwise disjoint and together cover all `N` process indices;
in each yielded batch every `[T, n_shard, ...]` tensor is flattened row-major
with the element for timestep `t` and in-shard process `p` at flat index
`t * n_shard + p`; and the observation tensors are reassembled into their
nested dictionary structure from the recorded flattened keys (which record
nonempty, pairwise prefix-unrelated paths). -/
theorem C2_recurrent_generator {γ : Type} (T N m : ℕ)
    (hm : 1 ≤ m) (hmN : m ≤ N)
    (observations : List (String × (ℕ → ℕ → γ)))
    (flattened_spaces : List (String × List String))
    (hidden : ℕ → ℕ → ℕ → γ)
    (actions prev_actions value_preds returns masks action_log_probs
      advantages : ℕ → ℕ → γ)
    (shuffled_pairs : List (ℤ × ℤ))
    (hperm : shuffled_pairs.Perm (shardPairs N m))
    (hne : ∀ kv : String × (ℕ → ℕ → γ), kv ∈ observations →
      effPath flattened_spaces kv.1 ≠ [])
    (hpw : List.Pairwise (fun kv1 kv2 : String × (ℕ → ℕ → γ) =>
      ¬ (effPath flattened_spaces kv1.1).IsPrefix
          (effPath flattened_spaces kv2.1) ∧
      ¬ (effPath flattened_spaces kv2.1).IsPrefix
          (effPath flattened_spaces kv1.1)) observations) :
    (recurrent_generator T observations flattened_spaces hidden actions
        prev_actions value_preds returns masks action_log_probs advantages
        shuffled_pairs).length = m ∧
    (∀ j : ℤ, 0 ≤ j → j < (N : ℤ) →
      ∃ k, k < m ∧ cutInd N m k ≤ j ∧ j < cutInd N m (k + 1)) ∧
    (∀ (k1 k2 : ℕ) (j : ℤ), k1 < m → k2 < m →
      cutInd N m k1 ≤ j → j < cutInd N m (k1 + 1) →
      cutInd N m k2 ≤ j → j < cutInd N m (k2 + 1) → k1 = k2) ∧
    (∀ ab : ℤ × ℤ, ab ∈ shuffled_pairs → ∀ t p : ℕ, t < T →
      p < (ab.2 - ab.1).toNat →
      ((shardBatch T observations flattened_spaces hidden actions
          prev_actions value_preds returns masks action_log_probs advantages
          ab.1 ab.2).actions (t * (ab.2 - ab.1).toNat + p)
          = actions t (ab.1.toNat + p) ∧
        (shardBatch T observations flattened_spaces hidden actions
          prev_actions value_preds returns masks action_log_probs advantages
          ab.1 ab.2).prev_actions (t * (ab.2 - ab.1).toNat + p)
          = prev_actions t (ab.1.toNat + p) ∧
        (shardBatch T observations flattened_spaces hidden actions
          prev_actions value_preds returns masks action_log_probs advantages
          ab.1 ab.2).values (t * (ab.2 - ab.1).toNat + p)
          = value_preds t (ab.1.toNat + p) ∧
        (shardBatch T observations flattened_spaces hidden actions
          prev_actions value_preds returns masks action_log_probs advantages
          ab.1 ab.2).returns (t * (ab.2 - ab.1).toNat + p)
          = returns t (ab.1.toNat + p) ∧
        (shardBatch T observations flattened_spaces hidden actions
          prev_actions value_preds returns masks action_log_probs advantages
          ab.1 ab.2).masks (t * (ab.2 - ab.1).toNat + p)
          = masks t (ab.1.toNat + p) ∧
        (shardBatch T observations flattened_spaces hidden actions
          prev_actions value_preds returns masks action_log_probs advantages
          ab.1 ab.2).old_action_log_probs (t * (ab.2 - ab.1).toNat + p)
          = action_log_probs t (ab.1.toNat + p) ∧
        (shardBatch T observations flattened_spaces hidden actions
          prev_actions value_preds returns masks action_log_probs advantages
          ab.1 ab.2).adv_targ (t * (ab.2 - ab.1).toNat + p)
          = advantages t (ab.1.toNat + p))) ∧
    (∀ ab : ℤ × ℤ, ab ∈ shuffled_pairs →
      ∃ es, (shardBatch T observations flattened_spaces hidden actions
          prev_actions value_preds returns masks action_log_probs advantages
          ab.1 ab.2).observations = some es ∧
        ∀ kv : String × (ℕ → ℕ → γ), kv ∈ observations →
          getPath es (effPath flattened_spaces kv.1)
            = some (.tensor (shardFlat T ab.1 ab.2 kv.2))) := by
  refine ⟨?_, ?_, ?_, ?_, ?_⟩
  · simp only [recurrent_generator, List.length_map]
    rw [hperm.length_eq]
    simp [shardPairs]
  · intro j h0 hj
    refine cutInd_cover N m j h0 m ?_
    rw [cutInd_last N m (by omega)]
    exact hj
  · intro k1 k2 j hk1 hk2 ha1 hb1 ha2 hb2
    exact cutInd_disjoint N m (by omega) hmN k1 k2 j ha1 hb1 ha2 hb2
  · intro ab hab t p ht hp
    exact ⟨shardFlat_at T ab.1 ab.2 actions t p hp,
      shardFlat_at T ab.1 ab.2 prev_actions t p hp,
      shardFlat_at T ab.1 ab.2 value_preds t p hp,
      shardFlat_at T ab.1 ab.2 returns t p hp,
      shardFlat_at T ab.1 ab.2 masks t p hp,
      shardFlat_at T ab.1 ab.2 action_log_probs t p hp,
      shardFlat_at T ab.1 ab.2 advantages t p hp⟩
  · intro ab hab
    have hne' : ∀ kv : String × (ℕ → γ), kv ∈ observations.map
        (fun kv => (kv.1, shardFlat T ab.1 ab.2 kv.2)) →
        effPath flattened_spaces kv.1 ≠ [] := by
      intro kv hkv
      obtain ⟨kv0, hkv0, rfl⟩ := List.mem_map.mp hkv
      exact hne kv0 hkv0
    have hpw' : List.Pairwise (fun kv1 kv2 : String × (ℕ → γ) =>
        ¬ (effPath flattened_spaces kv1.1).IsPrefix
            (effPath flattened_spaces kv2.1) ∧
        ¬ (effPath flattened_spaces kv2.1).IsPrefix
            (effPath flattened_spaces kv1.1))
        (observations.map (fun kv => (kv.1, shardFlat T ab.1 ab.2 kv.2))) := by
      rw [List.pairwise_map]
      exact hpw
    obtain ⟨es, hes, hplace⟩ := unflatten_spaces_correct flattened_spaces
      (observations.map (fun kv => (kv.1, shardFlat T ab.1 ab.2 kv.2)))
      hne' hpw'
    refine ⟨es, hes, ?_⟩
    intro kv hkv
    exact hplace (kv.1, shardFlat T ab.1 ab.2 kv.2)
      (List.mem_map_of_mem _ hkv)

/-- Witness observation dict for C2: one recorded flattened key. -/
def obsW : List (String × (ℕ → ℕ → ℚ)) :=
  [("a._AUTOFLATTEN_.b", fun _ _ => 0)]

/-- Witness `flattened_spaces` for C2. -/
def fsW : List (String × List String) := [("a._AUTOFLATTEN_.b", ["a", "b"])]

/-- Witness for C2 at `N = 4`, `num_mini_batch = 2`, `T = 1`, unshuffled
pairs: exactly 2 batches are yielded. -/
theorem C2_recurrent_generator_witness :
    (recurrent_generator 1 obsW fsW (fun _ _ _ => (0 : ℚ))
        (fun _ _ => 0) (fun _ _ => 0) (fun _ _ => 0) (fun _ _ => 0)
        (fun _ _ => 0) (fun _ _ => 0) (fun _ _ => 0)
        (shardPairs 4 2)).length = 2 :=
  (C2_recurrent_generator 1 4 2 (by decide) (by decide) obsW fsW
      (fun _ _ _ => (0 : ℚ)) (fun _ _ => 0) (fun _ _ => 0) (fun _ _ => 0)
      (fun _ _ => 0) (fun _ _ => 0) (fun _ _ => 0) (fun _ _ => 0)
      (shardPairs 4 2) (List.Perm.refl _)
      (by
        intro kv hkv
        rw [List.mem_singleton.mp hkv]
        simp [effPath, alistFind, fsW])
      (by
        rw [obsW]
        exact List.pairwise_singleton _ _)).1

end AllenAct
